import Mathlib

/-!
Verification development for the svty repository (svty.py, jumper.py and the
terminal drivers).  Python byte strings and text strings are both embedded as
`List Char`; Python `bytes` values in this program are ASCII throughout.
Fallible Python code (exceptions) is embedded with `Option` / `Except`.
-/

/-- Byte/character strings, the embedding of Python `bytes` and `str`. -/
abbrev Bytes := List Char

/-- The apostrophe character (built numerically: code point 39). -/
def apos : Char := Char.ofNat 39

/-- Newline. -/
def chLF : Char := Char.ofNat 10

/-- Carriage return. -/
def chCR : Char := Char.ofNat 13

/-- `SSHMultiPass.PROMPT = b"'s password: "` (jumper.py). -/
def PROMPT : Bytes := apos :: "s password: ".toList

/-- Does `pat` match inside `s` at offset `i`?  (Occurrence test.) -/
def matchAt (s pat : Bytes) (i : Nat) : Bool :=
  pat.isPrefixOf (s.drop i)

/-- Python `s.find(pat)`: offset of the first occurrence of `pat` in `s`,
`none` when there is no occurrence (Python returns -1). -/
def firstOccur (s pat : Bytes) : Option Nat :=
  match s with
  | [] => if pat.isEmpty then some 0 else none
  | _ :: rest =>
    if pat.isPrefixOf s then some 0
    else (firstOccur rest pat).map (· + 1)

/-- Offset of the last occurrence of character `c` in `l`, if any. -/
def lastIdxOf (l : Bytes) (c : Char) : Option Nat :=
  match l with
  | [] => none
  | x :: xs =>
    match lastIdxOf xs c with
    | some i => some (i + 1)
    | none => if x = c then some 0 else none

/-- Python `buffer[iuser_host + 1 : iprompt]` where
`iuser_host = buffer.rfind(b"\n", 0, iprompt)`: the bytes of `a` after the
last newline of `a` (the whole of `a` when it has no newline, matching the
`-1 + 1 = 0` slice start Python produces). -/
def afterLastNL (a : Bytes) : Bytes :=
  a.drop (((lastIdxOf a chLF).map (· + 1)).getD 0)

/-- Remove the entry with key `k` from an association list and return its
value: the embedding of Python `dict.pop` (`none` = `KeyError`). -/
def popKey (m : List (Bytes × Bytes)) (k : Bytes) : Option (Bytes × List (Bytes × Bytes)) :=
  match m with
  | [] => none
  | (k0, v0) :: rest =>
    if k0 = k then some (v0, rest)
    else (popKey rest k).map (fun p => (p.1, (k0, v0) :: p.2))

/-- Fuelled prompt-scanning loop of `SSHMultiPass._write_parent` (jumper.py
lines 403-425): find the first `PROMPT` in the buffer, take the bytes after
the last preceding newline as `user@host`, pop that password, write
`password + b"\n"` to the child, trim the buffer past the prompt, repeat.
Returns `(passwords, prompt_buffer, child_writes)`; `none` is the `KeyError`
path (`RuntimeError: No password for ...`).  The fuel only serves
termination; `scanLoop` supplies enough of it. -/
def scanLoopF (fuel : Nat) (pwds : List (Bytes × Bytes)) (buf : Bytes) :
    Option (List (Bytes × Bytes) × Bytes × List Bytes) :=
  match fuel with
  | 0 => none
  | fuel + 1 =>
    match firstOccur buf PROMPT with
    | none => some (pwds, buf, [])
    | some iprompt =>
      let user_host := afterLastNL (buf.take iprompt)
      match popKey pwds user_host with
      | none => none
      | some (password, pwds2) =>
        match scanLoopF fuel pwds2 (buf.drop (iprompt + PROMPT.length)) with
        | none => none
        | some (pwds3, buf3, ws) => some (pwds3, buf3, (password ++ [chLF]) :: ws)

/-- The prompt-scanning loop with sufficient fuel. -/
def scanLoop (pwds : List (Bytes × Bytes)) (buf : Bytes) :
    Option (List (Bytes × Bytes) × Bytes × List Bytes) :=
  scanLoopF (buf.length + 1) pwds buf

/-- Python `data.replace("\n", "\r\n")` (the `add_cr` rewrite in
`_write_parent`): every LF is replaced by CR-LF; the replacement scan
continues after the inserted text, so this is the character-wise rewrite. -/
def lfToCrLf : Bytes → Bytes
  | [] => []
  | c :: rest => if c = chLF then chCR :: chLF :: lfToCrLf rest else c :: lfToCrLf rest

/-- The mutable state of `SSHMultiPass` used by `_write_parent`. -/
structure InjState where
  prompt_buffer : Bytes
  passwords : List (Bytes × Bytes)
  add_cr : Bool
deriving DecidableEq, Repr

/-- `SSHMultiPass._write_parent(data)` (jumper.py lines 387-425).  Returns
`(state, bytes written to self.stdout, byte strings written to master_fd)`;
`none` is the `RuntimeError` (missing password) path.  The data (after the
optional `add_cr` rewrite) is written to the parent-side sink verbatim;
scanning happens only while `self.passwords` is non-empty. -/
def writeParent (st : InjState) (data : Bytes) : Option (InjState × Bytes × List Bytes) :=
  let data := if st.add_cr then lfToCrLf data else data
  if st.passwords.isEmpty then
    some (st, data, [])
  else
    match scanLoop st.passwords (st.prompt_buffer ++ data) with
    | none => none
    | some (pwds2, buf2, ws) => some (⟨buf2, pwds2, st.add_cr⟩, data, ws)

/-- A sequence of `_write_parent` calls, accumulating the parent-side output
and the master-side (child) writes. -/
def writeParentRun (st : InjState) : List Bytes → Option (InjState × Bytes × List Bytes)
  | [] => some (st, [], [])
  | d :: ds =>
    match writeParent st d with
    | none => none
    | some (st1, out1, ws1) =>
      match writeParentRun st1 ds with
      | none => none
      | some (st2, out2, ws2) => some (st2, out1 ++ out2, ws1 ++ ws2)

/-- Does `pat` occur anywhere in `s`?  (Python `s.rfind(pat) != -1`.) -/
def occursIn (s pat : Bytes) : Bool :=
  (firstOccur s pat).isSome


/-! ### Occurrence infrastructure for the prompt scanner -/

/-- Python `dict[k]` lookup over the embedding. -/
def lookupKey : List (Bytes × Bytes) → Bytes → Option Bytes
  | [], _ => none
  | (k0, v0) :: rest, k => if k0 = k then some v0 else lookupKey rest k

/-- The map left by a successful `dict.pop`. -/
def eraseKey : List (Bytes × Bytes) → Bytes → List (Bytes × Bytes)
  | [], _ => []
  | (k0, v0) :: rest, k => if k0 = k then rest else (k0, v0) :: eraseKey rest k

/-- Popping the keys of a list one after the other. -/
def removeKeys (m : List (Bytes × Bytes)) (ks : List Bytes) : List (Bytes × Bytes) :=
  ks.foldl eraseKey m

/-- One well-formed prompt of the stream fed to `_write_parent`: the bytes
`pre` before the literal prompt tail, and the password the map holds for the
corresponding `user@host`. -/
structure PromptBlock where
  pre : Bytes
  pw : Bytes
deriving DecidableEq, Repr

/-- The bytes a block contributes to the stream. -/
def blockStr (b : PromptBlock) : Bytes := b.pre ++ PROMPT

/-- The `user@host` key the scanner attributes to the block: the bytes of
`pre` after its last newline. -/
def blockKey (b : PromptBlock) : Bytes := afterLastNL b.pre

/-- A stream consisting of `bs` well-formed prompts followed by prompt-free
residue `rest`. -/
def streamOf (bs : List PromptBlock) (rest : Bytes) : Bytes :=
  (bs.map blockStr).flatten ++ rest

/-- Well-formedness of a block: the prompt tail occurs in `pre ++ PROMPT`
exactly once, at the end (so the scanner's first match lands on it). -/
def goodBlock (b : PromptBlock) : Prop :=
  firstOccur (blockStr b) PROMPT = some b.pre.length

/-- Specification-side consumption: which leading blocks are completely
contained in a prefix `q` of the stream, and what partial residue is left. -/
def consume : List PromptBlock → Bytes → List PromptBlock × Bytes
  | [], q => ([], q)
  | b :: bs, q =>
    if b.pre.length + PROMPT.length ≤ q.length then
      let r := consume bs (q.drop (b.pre.length + PROMPT.length))
      (b :: r.1, r.2)
    else ([], q)

instance decGoodBlock (b : PromptBlock) : Decidable (goodBlock b) :=
  inferInstanceAs (Decidable (firstOccur (blockStr b) PROMPT = some b.pre.length))

/-- Concrete two-hop fixture: first prompt. -/
def demoB1 : PromptBlock := ⟨"u1@h1".toList, "p1".toList⟩

/-- Concrete two-hop fixture: second prompt, preceded by a banner line. -/
def demoB2 : PromptBlock := ⟨"banner".toList ++ [chLF] ++ "u2@h2".toList, "p2".toList⟩

/-- Concrete two-prompt stream with trailing output. -/
def demoStream : Bytes := streamOf [demoB1, demoB2] "tail".toList

/-- Concrete password map for the fixture. -/
def demoPwds : List (Bytes × Bytes) :=
  [(blockKey demoB1, demoB1.pw), (blockKey demoB2, demoB2.pw)]

/-- State of the relay loop: the injector plus the `readable` stdin gate. -/
structure RelayState where
  inj : InjState
  readable : Bool
deriving DecidableEq, Repr

/-- The master-fd half of one select round: `if not self.passwords:
readable = True`, read, `_write_parent`.  `none` when the fd was not ready. -/
def masterStep (st : RelayState) (mr : Option Bytes) :
    Option (RelayState × Bytes × List Bytes) :=
  match mr with
  | none => some (st, [], [])
  | some d =>
    let readable2 := if st.inj.passwords.isEmpty then true else st.readable
    match writeParent st.inj d with
    | none => none
    | some (inj2, out, ws) => some (⟨inj2, readable2⟩, out, ws)

/-- The stdin half of one select round: skip (`continue`) when the gate is
closed; break on EOF; otherwise forward to the child.  Returns the forwarded
chunks and the continue flag. -/
def stdinStep (st : RelayState) (sr : Option Bytes) : List Bytes × Bool :=
  match sr with
  | none => ([], true)
  | some d =>
    if st.readable then
      if d.isEmpty then ([], false) else ([d], true)
    else ([], true)

/-- One round of the relay loop: master fd first, then stdin (the order of
the two `in r` tests in the source). -/
def relayRound (st : RelayState) (mr sr : Option Bytes) :
    Option (RelayState × Bytes × List Bytes × List Bytes × Bool) :=
  match masterStep st mr with
  | none => none
  | some (st1, out, ws) =>
    let fc := stdinStep st1 sr
    some (st1, out, ws, fc.1, fc.2)

/-- The relay loop over a trace of select rounds (each round: optional
master-fd data, optional stdin data).  Accumulates parent-side output,
master-side password writes, and stdin chunks forwarded to the child. -/
def relayRun (st : RelayState) :
    List (Option Bytes × Option Bytes) → Option (RelayState × Bytes × List Bytes × List Bytes)
  | [] => some (st, [], [], [])
  | (mr, sr) :: evs =>
    match relayRound st mr sr with
    | none => none
    | some (st1, out1, ws1, fw1, cont) =>
      if cont then
        match relayRun st1 evs with
        | none => none
        | some (st2, out2, ws2, fw2) => some (st2, out1 ++ out2, ws1 ++ ws2, fw1 ++ fw2)
      else some (st1, out1, ws1, fw1)

/-- The stdin chunks of a trace, up to the first EOF (empty read breaks). -/
def collectStdin : List (Option Bytes × Option Bytes) → List Bytes
  | [] => []
  | (_, sr) :: evs =>
    match sr with
    | none => collectStdin evs
    | some d => if d.isEmpty then [] else d :: collectStdin evs

/-- Python `re.split(r"\+(?!\+)", s)` as the regex engine executes it: scan
left to right; a `+` not followed by another `+` is a split point; a `+`
followed by `+` fails the lookahead and the scan moves on one character.
`acc` is the current segment, reversed. -/
def reSplitPlus (acc : Bytes) : Bytes → List Bytes
  | [] => [acc.reverse]
  | c :: rest =>
    if c = '+' then
      match rest with
      | '+' :: _ => reSplitPlus ('+' :: acc) rest
      | _ => acc.reverse :: reSplitPlus [] rest
    else reSplitPlus (c :: acc) rest

/-- The `uphp_splitter.split(encoded_uphps)` call. -/
def splitUphps (s : Bytes) : List Bytes := reSplitPlus [] s

/-- Python `s.split(sep, 1)` for a single-character separator, as the pair of
pieces when the separator occurs (`none`: no separator, Python returns the
one-element list). -/
def splitOnceChar (s : Bytes) (c : Char) : Option (Bytes × Bytes) :=
  match firstOccur s [c] with
  | none => none
  | some i => some (s.take i, s.drop (i + 1))

/-- Python `s.rsplit(sep, 1)` for a single-character separator. -/
def rsplitOnceChar (s : Bytes) (c : Char) : Option (Bytes × Bytes) :=
  match lastIdxOf s c with
  | none => none
  | some i => some (s.take i, s.drop (i + 1))

/-- Python `s.replace("++", "+")` (the password unescape). -/
def unescapePlusPlus : Bytes → Bytes
  | [] => []
  | [c] => [c]
  | c1 :: c2 :: rest =>
    if c1 = '+' ∧ c2 = '+' then '+' :: unescapePlusPlus rest
    else c1 :: unescapePlusPlus (c2 :: rest)

/-- Decidable equality for `Except` results. -/
instance decEqExcept {ε α : Type} [DecidableEq ε] [DecidableEq α] :
    DecidableEq (Except ε α) := fun a b =>
  match a, b with
  | .error e1, .error e2 =>
    if h : e1 = e2 then isTrue (by rw [h])
    else isFalse (fun hc => h (by injection hc))
  | .ok v1, .ok v2 =>
    if h : v1 = v2 then isTrue (by rw [h])
    else isFalse (fun hc => h (by injection hc))
  | .error _, .ok _ => isFalse (fun hc => Except.noConfusion hc)
  | .ok _, .error _ => isFalse (fun hc => Except.noConfusion hc)

/-- Python whitespace, as stripped by `int()`. -/
def isPySpace (c : Char) : Bool :=
  c = ' ' || c = Char.ofNat 9 || c = chLF || c = chCR || c = Char.ofNat 11 || c = Char.ofNat 12

/-- Python `s.strip()`. -/
def pyStrip (s : Bytes) : Bytes :=
  ((s.dropWhile isPySpace).reverse.dropWhile isPySpace).reverse

/-- Python `int(s)`: strip whitespace, optional sign, at least one digit
(`none` = `ValueError`). -/
def pyIntParse (s : Bytes) : Option Int :=
  let t := pyStrip s
  let (sign, digits) : Int × Bytes :=
    match t with
    | '-' :: rest => (-1, rest)
    | '+' :: rest => (1, rest)
    | _ => (1, t)
  if digits.isEmpty || digits.any (fun d => !d.isDigit) then none
  else some (sign * (digits.foldl (fun acc d => acc * 10 + ((d.toNat : Int) - 48)) 0))

/-- One parsed hop: `(user, password, host, port)`. -/
structure Uphp where
  user : Bytes
  password : Bytes
  host : Bytes
  port : Int
deriving DecidableEq, Repr

/-- The `ValueError` cases of `parse_uphps`. -/
inductive UphpErr
  | noAddress (entry : Bytes)
  | badPort (entry : Bytes)
deriving DecidableEq, Repr

/-- One iteration of the `parse_uphps` loop over a single entry; `resolver`
stands for `socket.gethostbyname` and `userEnv` for `os.environ["USER"]`. -/
def parseUphpEntry (resolver : Bytes → Option Bytes) (userEnv : Bytes) (uphp : Bytes) :
    Except UphpErr Uphp :=
  let uhp :=
    match rsplitOnceChar uphp '@' with
    | some p => p
    | none => (userEnv, uphp)
  let up := uhp.1
  let hp := uhp.2
  let upw :=
    match splitOnceChar up ':' with
    | some p => (p.1, "p:".toList ++ unescapePlusPlus p.2)
    | none =>
      match splitOnceChar up '=' with
      | some p => (p.1, "k:".toList ++ p.2)
      | none => (up, "p:".toList)
  let hpp :=
    match splitOnceChar hp ':' with
    | some p => p
    | none => (hp, "22".toList)
  match resolver hpp.1 with
  | none => .error (.noAddress uphp)
  | some host =>
    match pyIntParse hpp.2 with
    | none => .error (.badPort uphp)
    | some port => .ok ⟨upw.1, upw.2.drop 2, host, port⟩

/-- `parse_uphps(encoded_uphps)`. -/
def parse_uphps (resolver : Bytes → Option Bytes) (userEnv : Bytes) (s : Bytes) :
    Except UphpErr (List Uphp) :=
  (splitUphps s).mapM (parseUphpEntry resolver userEnv)

/-- Python `s.replace("\r\n", "\n")` (left-to-right, non-overlapping). -/
def crlfToLf : Bytes → Bytes
  | [] => []
  | [c] => [c]
  | c1 :: c2 :: rest =>
    if c1 = chCR ∧ c2 = chLF then chLF :: crlfToLf rest
    else c1 :: crlfToLf (c2 :: rest)

/-- Characters `shlex.quote` leaves unquoted: ASCII `\w` plus
`@ % + = : , . - ` and the slash. -/
def shlexSafe (c : Char) : Bool :=
  c.isAlpha || c.isDigit || c = '_' || c = '@' || c = '%' || c = '+' || c = '=' ||
    c = ':' || c = ',' || c = '.' || c = '/' || c = '-'

/-- Python `shlex.quote(s)`. -/
def shlexQuote (s : Bytes) : Bytes :=
  if s.isEmpty then [apos, apos]
  else if s.all shlexSafe then s
  else apos :: (s.flatMap (fun c =>
    if c = apos then [apos, '"', apos, '"', apos] else [c])) ++ [apos]

/-- Python `s[-k:]` (the whole string when it is shorter than `k`). -/
def takeLast (l : Bytes) (k : Nat) : Bytes := l.drop (l.length - k)

/-- The pong-accumulation loop of the remote `check_output`: append chunks
read from the master until the tail equals `token + "\r\n"`; `none` when the
stream is exhausted first (the Python loop would block forever). -/
def pongLoop (token acc : Bytes) : List Bytes → Option Bytes
  | [] => none
  | c :: cs =>
    let acc2 := acc ++ c
    if takeLast acc2 (token.length + 2) = token ++ [chCR, chLF] then some acc2
    else pongLoop token acc2 cs

/-- Python `stdout.rsplit("\n", 3)` unpacked into exactly four pieces
(`none` = fewer than three newlines, the `ValueError` of the unpacking). -/
def rsplitNL3 (s : Bytes) : Option (Bytes × Bytes × Bytes × Bytes) :=
  match rsplitOnceChar s chLF with
  | none => none
  | some (a, p4) =>
    match rsplitOnceChar a chLF with
    | none => none
    | some (b, p3) =>
      match rsplitOnceChar b chLF with
      | none => none
      | some (c, p2) => some (c, p2, p3, p4)

/-- Python `s.lstrip()`. -/
def pyLStrip (s : Bytes) : Bytes := s.dropWhile isPySpace

/-- Fuelled `while stdout.startswith(cmd): stdout = stdout.split("\n", 1)[1]`
(the command-echo elision); `none` covers the `IndexError` when no newline
remains and fuel exhaustion. -/
def stripCmdEchoF (fuel : Nat) (cmd : Bytes) (s : Bytes) : Option Bytes :=
  match fuel with
  | 0 => none
  | fuel + 1 =>
    if cmd.isPrefixOf s then
      match splitOnceChar s chLF with
      | none => none
      | some p => stripCmdEchoF fuel cmd p.2
    else some s

/-- The echo-elision loop with sufficient fuel. -/
def stripCmdEcho (cmd s : Bytes) : Option Bytes := stripCmdEchoF (s.length + 1) cmd s

/-- Remote `Executor.check_output(args)` over a given stream of `pong`
results: prepend `TZ=UTC LANG=en_GB.UTF-8`, shell-quote, join, then pong
until the sentinel tail, normalise CR-LF, rsplit off exit code and sentinel,
lstrip, strip leading command echoes, and parse the exit code.  Returns
`(stdout, returncode)` just before the error-policy check. -/
def executorRemoteCheckOutput (token : Bytes) (args : List Bytes) (chunks : List Bytes) :
    Option (Bytes × Int) :=
  let cmd := List.intercalate [' ']
    ((["TZ=UTC".toList, "LANG=en_GB.UTF-8".toList] ++ args).map shlexQuote) ++ [chLF]
  match pongLoop token [] chunks with
  | none => none
  | some stdout0 =>
    match rsplitNL3 (crlfToLf stdout0) with
    | none => none
    | some (body0, rc, _, _) =>
      match stripCmdEcho cmd (pyLStrip body0) with
      | none => none
      | some body =>
        match pyIntParse rc with
        | none => none
        | some code => some (body, code)

/-- The raw master stream of spec scenario 3: the echoed command, `foo`, `0`
and the sentinel `HI`, all CR-LF terminated. -/
def demoPongStream : Bytes :=
  "TZ=UTC LANG=en_GB.UTF-8 echo foo".toList ++ [chCR, chLF] ++
  "foo".toList ++ [chCR, chLF] ++ "0".toList ++ [chCR, chLF] ++
  "HI".toList ++ [chCR, chLF]

/-- `subprocess.CalledProcessError(returncode, args, stdout)` as the drivers
observe it. -/
structure CPE where
  returncode : Int
  stdout : String
deriving DecidableEq, Repr

/-- The tail of `Executor.check_output` (svty.py lines 250-258): non-zero
exit raises unless the `ignore_errors` predicate accepts it. -/
def checkOutputPolicy (ignore : Option (String → Int → Bool)) (stdout : String)
    (rc : Int) : Except CPE String :=
  if rc = 0 then .ok stdout
  else
    match ignore with
    | none => .error ⟨rc, stdout⟩
    | some f => if f stdout rc then .ok stdout else .error ⟨rc, stdout⟩

/-- Process environment, `os.environ`. -/
def envSet (env : List (String × String)) (k v : String) : List (String × String) :=
  match env with
  | [] => [(k, v)]
  | (k0, v0) :: rest => if k0 = k then (k, v) :: rest else (k0, v0) :: envSet rest k v

/-- Environment lookup. -/
def envGet : List (String × String) → String → Option String
  | [], _ => none
  | (k0, v0) :: rest, k => if k0 = k then some v0 else envGet rest k

/-- The `Executor` object state that could be assigned by its methods
(`self.args.uphps` truth, `self.token`, `self.stopping`). -/
structure ExecutorState where
  uphps : Bool
  token : String
  stopping : Bool
deriving DecidableEq, Repr

/-- Local branch of `Executor.check_output` (svty.py lines 242-258): mutates
the calling process's own environment (`os.environ["TZ"]`,
`os.environ["LANG"]`), runs the child (whose captured `(stdout, returncode)`
is the parameter `res`), and applies the error policy.  Returns the executor
state, the mutated global environment, and the result. -/
def executorLocalCheckOutput (st : ExecutorState) (env : List (String × String))
    (res : String × Int) (ignore : Option (String → Int → Bool)) :
    ExecutorState × List (String × String) × Except CPE String :=
  let env1 := envSet env "TZ" "UTC"
  let env2 := envSet env1 "LANG" "en_GB.UTF-8"
  (st, env2, checkOutputPolicy ignore res.1 res.2)

/-- Errors a driver operation can surface: `FileNotFoundError` (the
normalised "program missing"), a re-raised `CalledProcessError`, or a
`ValueError` from output parsing. -/
inductive DrvErr
  | programMissing (msg : String)
  | failed (e : CPE)
  | parseError
deriving DecidableEq, Repr

/-- Python `s.startswith(tuple)`. -/
def startsWithAny (s : String) (ps : List String) : Bool :=
  ps.any (fun p => p.toList.isPrefixOf s.toList)

/-- Python `s.rfind(needle) != -1` on text strings. -/
def containsStr (s needle : String) : Bool := occursIn s.toList needle.toList

/-- Python `s.strip()` on text strings. -/
def stripStr (s : String) : String := String.mk (pyStrip s.toList)

/-- Python `s[1:-1]`. -/
def sliceInner (s : String) : String := String.mk ((s.toList.drop 1).dropLast)

/-- A 1-2 digit field of `strptime`. -/
def parseNat2 (s : String) : Option Nat :=
  let l := s.toList
  if l.isEmpty || l.length > 2 || l.any (fun c => !c.isDigit) then none
  else some (l.foldl (fun acc d => acc * 10 + (d.toNat - 48)) 0)

/-- Python `datetime.strptime(s, "%d/%m/%y %H:%M:%S")`, with the field range
checks `strptime` performs (`none` = `ValueError`). -/
def strptimeDMY (s : String) : Option (Nat × Nat × Nat × Nat × Nat × Nat) :=
  match s.splitOn " " with
  | [d, t] =>
    match d.splitOn "/", t.splitOn ":" with
    | [dd, mm, yy], [hh, mi, ss] =>
      match parseNat2 dd, parseNat2 mm, parseNat2 yy,
          parseNat2 hh, parseNat2 mi, parseNat2 ss with
      | some vd, some vm, some vy, some vh, some vmi, some vs =>
        if 1 ≤ vd ∧ vd ≤ 31 ∧ 1 ≤ vm ∧ vm ≤ 12 ∧ vh ≤ 23 ∧ vmi ≤ 59 ∧ vs ≤ 61
        then some (vd, vm, vy, vh, vmi, vs)
        else none
      | _, _, _, _, _, _ => none
    | _, _ => none
  | _ => none

/-- One parsed `screen -list` session row. -/
structure ScreenSession where
  session_name : String
  session_created : Nat × Nat × Nat × Nat × Nat × Nat
  session_attached : Nat
deriving DecidableEq, Repr

/-- One `\t`-separated line of `screen -list` (svty.py lines 314-323). -/
def parseScreenLine (l : String) : Except DrvErr ScreenSession :=
  match (stripStr l).splitOn "\t" with
  | [name, created, attached] =>
    match strptimeDMY (sliceInner created) with
    | none => .error .parseError
    | some dt =>
      .ok ⟨name, dt,
        if (sliceInner attached).map Char.toLower = "attached" then 1 else 0⟩
  | _ => .error .parseError

/-- `ScreenTerminal.check_output(args, safe_msgs)` (svty.py lines 281-284),
over the `(stdout, returncode)` of the underlying `screen` command. -/
def screenCheckOutput (safe_msgs : List String) (stdout : String) (rc : Int) :
    Except CPE (List String) :=
  match checkOutputPolicy
      (some (fun out rc2 => rc2 == 1 && startsWithAny out safe_msgs)) stdout rc with
  | .error e => .error e
  | .ok out => .ok (if out ≠ "" then (stripStr out).splitOn "\n" else [])

/-- `ScreenTerminal.list_sessions()` (svty.py lines 286-325), over the
`(stdout, returncode)` of `screen -list`. -/
def screenListSessions (stdout : String) (rc : Int) : Except DrvErr (List ScreenSession) :=
  let step : Except DrvErr (List String) :=
    match screenCheckOutput ["There is a screen on", "There are screens on"] stdout rc with
    | .ok lines => .ok lines
    | .error e =>
      if e.returncode = 127 ∧ containsStr e.stdout "command not found" = true then
        .error (.programMissing (stripStr e.stdout))
      else if e.returncode = 1 ∧
          startsWithAny e.stdout ["No Sockets found in", "No screen session found"] = true then
        .ok ["", ""]
      else .error (.failed e)
  match step with
  | .error e => .error e
  | .ok lines => ((lines.drop 1).dropLast).mapM parseScreenLine

/-- Values of the dict-backed tmux records: strings, integers, and
timestamp-coerced integers (`datetime.fromtimestamp`). -/
inductive PyVal
  | s (v : String)
  | i (v : Int)
  | ts (v : Int)
deriving DecidableEq, Repr

/-- String-body scanner of the flat JSON parser: characters up to the
closing quote (no escapes; the tmux `-F` formatter emits none). -/
def jsonStrAux : Bytes → Option (Bytes × Bytes)
  | [] => none
  | c :: rest =>
    if c = '"' then some ([], rest)
    else if c = Char.ofNat 92 then none
    else (jsonStrAux rest).map (fun p => (c :: p.1, p.2))

/-- Skip blanks. -/
def skipSpaces (s : Bytes) : Bytes := s.dropWhile (fun c => c = ' ')

/-- Fuelled pair list of the flat JSON parser. -/
def jsonPairsF : Nat → Bytes → Option (List (String × String) × Bytes)
  | 0, _ => none
  | fuel + 1, s =>
    match skipSpaces s with
    | '"' :: rest =>
      match jsonStrAux rest with
      | none => none
      | some (k, rest2) =>
        match skipSpaces rest2 with
        | ':' :: rest3 =>
          match skipSpaces rest3 with
          | '"' :: rest4 =>
            match jsonStrAux rest4 with
            | none => none
            | some (v, rest5) =>
              match skipSpaces rest5 with
              | ',' :: rest6 =>
                (jsonPairsF fuel rest6).map
                  (fun p => ((String.mk k, String.mk v) :: p.1, p.2))
              | '}' :: rest6 => some ([(String.mk k, String.mk v)], rest6)
              | _ => none
          | _ => none
        | _ => none
    | _ => none

/-- `json.loads(line)` for the flat string-to-string objects the tmux `-F`
formatter produces (`none` = `ValueError` or a shape outside that subset). -/
def jsonFlat (line : String) : Option (List (String × String)) :=
  match skipSpaces line.toList with
  | '{' :: rest =>
    match skipSpaces rest with
    | '}' :: rest2 => if (skipSpaces rest2).isEmpty then some [] else none
    | rest2 =>
      match jsonPairsF (rest2.length + 1) rest2 with
      | none => none
      | some (ps, rem) => if (skipSpaces rem).isEmpty then some ps else none
  | _ => none

/-- `TMuxSession.TIMESTAMPS`. -/
def tmuxSessionTimestamps : List String :=
  ["session_activity", "session_created", "session_last_attached"]

/-- `TMuxTerminal.check_output(args, safe_msgs)` (svty.py lines 460-483):
control-mode framing between `%begin` and `%end`, otherwise drop the
trailing empty line. -/
def tmuxCheckOutput (safe_msgs : List String) (stdout : String) (rc : Int) :
    Except CPE (List String) :=
  match checkOutputPolicy
      (some (fun out rc2 => rc2 == 1 && startsWithAny out safe_msgs)) stdout rc with
  | .error e => .error e
  | .ok out =>
    if out = "" then .ok []
    else if "%begin".toList.isPrefixOf out.toList then
      .ok (((out.splitOn "\n").drop 1).dropLast.dropLast)
    else .ok ((out.splitOn "\n").dropLast)

/-- The per-line value coercion of `TMuxTerminal.lister` (svty.py lines
493-506): numeric strings become integers (timestamp-marked keys become
timestamps); on `ValueError` the `ID` key is prefixed with the parent id. -/
def tmuxItemOfPairs (timestamps : List String) (idKey : String)
    (parent : Option (String × String)) (pairs : List (String × String)) :
    List (String × PyVal) :=
  pairs.map (fun kv =>
    match pyIntParse kv.2.toList with
    | some n => (kv.1, if timestamps.contains kv.1 then PyVal.ts n else PyVal.i n)
    | none =>
      match parent with
      | some p => if kv.1 = idKey then (kv.1, PyVal.s (p.1 ++ p.2 ++ kv.2))
                  else (kv.1, PyVal.s kv.2)
      | none => (kv.1, PyVal.s kv.2))

/-- `TMuxTerminal.lister` over the raw command result: split into lines, JSON
parse each, coerce values. -/
def tmuxLister (timestamps : List String) (idKey : String)
    (parent : Option (String × String)) (safe_msgs : List String)
    (stdout : String) (rc : Int) : Except DrvErr (List (List (String × PyVal))) :=
  match tmuxCheckOutput safe_msgs stdout rc with
  | .error e => .error (.failed e)
  | .ok lines =>
    lines.mapM (fun line =>
      match jsonFlat line with
      | none => .error DrvErr.parseError
      | some pairs => .ok (tmuxItemOfPairs timestamps idKey parent pairs))

/-- `TMuxTerminal.list_sessions()` (svty.py lines 509-525). -/
def tmuxListSessions (stdout : String) (rc : Int) :
    Except DrvErr (List (List (String × PyVal))) :=
  match tmuxLister tmuxSessionTimestamps "session_id" none [] stdout rc with
  | .ok sessions => .ok sessions
  | .error (.failed e) =>
    if e.returncode = 127 ∧ containsStr e.stdout "command not found" = true then
      .error (.programMissing (stripStr e.stdout))
    else if e.returncode = 1 ∧ startsWithAny e.stdout
        ["error connecting to ", "no server running on",
          "failed to connect to server"] = true then
      .ok []
    else .error (.failed e)
  | .error e => .error e

/-- `Executor.exec` in the local backend is `subprocess.call(args)`: it
returns the child's exit code and never raises `CalledProcessError` (the
remote branch likewise raises none). -/
def executorExec (childRc : Int) : Except CPE Int := .ok childRc

/-- `AbstractTerminal.call(args)`. -/
def terminalCall (childRc : Int) : Except CPE Int := executorExec childRc

/-- `ScreenTerminal.new_session()` (svty.py lines 327-337): the
`except CalledProcessError` handler around `call`. -/
def screenNewSession (childRc : Int) : Except DrvErr Int :=
  match terminalCall childRc with
  | .ok rc => .ok rc
  | .error e =>
    if e.returncode = 127 ∧ containsStr e.stdout "command not found" = true then
      .error (.programMissing (stripStr e.stdout))
    else .error (.failed e)

/-- `TMuxTerminal.new_session()` (svty.py lines 527-537). -/
def tmuxNewSession (childRc : Int) : Except DrvErr Int :=
  match terminalCall childRc with
  | .ok rc => .ok rc
  | .error e =>
    if e.returncode = 127 ∧ containsStr e.stdout "command not found" = true then
      .error (.programMissing (stripStr e.stdout))
    else .error (.failed e)

/-- The `session` variable of `show_sessions`: Python `None`, the home
marker `0`, or a session object (returned respectively as `None`, `""`, or
the session). -/
inductive SessSel (α : Type)
  | noneS
  | homeS
  | obj (a : α)
deriving DecidableEq, Repr

/-- The keys the browser reacts to. -/
inductive BKey
  | q
  | enter
  | left
  | right
  | npage
  | ppage
  | other
deriving DecidableEq, Repr

/-- Browser state across loop iterations. -/
structure BState (α : Type) where
  current_session : Nat
  page_number : Nat
  sessions : List α
  sessionVar : SessSel α
deriving DecidableEq, Repr

/-- External data consumed by one frame: the freshly aggregated session list
(used on the home page at page 0) and the page counts of the two debug views
(`pages = ceil(len(lines)/page_lines)`), which clamp `page_number`. -/
structure BIn (α : Type) where
  fresh : List α
  pagesHome : Nat
  pagesSess : Nat
  key : BKey

/-- The rendering half of one loop iteration (svty.py lines 906-979): on the
home page requery the sessions and set `session = 0`; on a session page set
`session = sessions[current_session - 1]` (`none` = `IndexError`); in the
debug views clamp `page_number = min(pages, page_number)`. -/
def browserFrame {α : Type} (st : BState α) (inp : BIn α) : Option (BState α) :=
  if st.current_session = 0 then
    if st.page_number > 0 then
      some { st with page_number := min inp.pagesHome st.page_number }
    else
      some { st with sessions := inp.fresh, sessionVar := SessSel.homeS }
  else
    match st.sessions[st.current_session - 1]? with
    | none => none
    | some s =>
      if st.page_number > 0 then
        some { st with sessionVar := SessSel.obj s,
                       page_number := min inp.pagesSess st.page_number }
      else
        some { st with sessionVar := SessSel.obj s }

/-- The key-handling half of one loop iteration (svty.py lines 995-1018):
`inl` continues the loop, `inr` breaks and returns `(session, sessions)`. -/
def browserKey {α : Type} (st : BState α) (c : BKey) :
    Sum (BState α) (SessSel α × List α) :=
  match c with
  | .q => Sum.inr (SessSel.noneS, st.sessions)
  | .enter =>
    if st.page_number = 0 then Sum.inr (st.sessionVar, st.sessions) else Sum.inl st
  | .left =>
    if st.page_number = 0 then
      Sum.inl { st with current_session :=
        if st.current_session = 0 then st.sessions.length else st.current_session - 1 }
    else Sum.inl st
  | .right =>
    if st.page_number = 0 then
      Sum.inl { st with current_session :=
        if st.current_session = st.sessions.length then 0 else st.current_session + 1 }
    else Sum.inl st
  | .npage => Sum.inl { st with page_number := st.page_number + 1 }
  | .ppage => Sum.inl { st with page_number := st.page_number - 1 }
  | .other => Sum.inl st

/-- One full loop iteration: render, then handle one key. -/
def browserStep {α : Type} (st : BState α) (inp : BIn α) :
    Option (Sum (BState α) (SessSel α × List α)) :=
  match browserFrame st inp with
  | none => none
  | some st1 => some (browserKey st1 inp.key)

/-- The browser loop over a finite input trace; ends in `inl` (still looping
when the trace runs out) or `inr` (returned). -/
def browserRun {α : Type} (st : BState α) :
    List (BIn α) → Option (Sum (BState α) (SessSel α × List α))
  | [] => some (Sum.inl st)
  | inp :: inps =>
    match browserStep st inp with
    | none => none
    | some (Sum.inl st1) => browserRun st1 inps
    | some (Sum.inr r) => some (Sum.inr r)

/-- The initial state of `show_sessions`: home session, page 0, no sessions,
`session = None`. -/
def browserInit (α : Type) : BState α := ⟨0, 0, [], SessSel.noneS⟩

/-- Invariant between loop iterations. -/
def BrInv {α : Type} (st : BState α) : Prop :=
  st.current_session ≤ st.sessions.length ∧
  (st.current_session = 0 → st.page_number ≠ 0 → ∀ a, st.sessionVar ≠ SessSel.obj a) ∧
  (∀ a, st.sessionVar = SessSel.obj a → a ∈ st.sessions)

/-- Invariant of a freshly rendered state (before key handling): on the home
session the `session` variable is never a stale object, whatever the page. -/
def BrFInv {α : Type} (st : BState α) : Prop :=
  st.current_session ≤ st.sessions.length ∧
  (st.current_session = 0 → ∀ a, st.sessionVar ≠ SessSel.obj a) ∧
  (∀ a, st.sessionVar = SessSel.obj a → a ∈ st.sessions)

theorem matchAt_iff {s pat : Bytes} {i : Nat} :
    matchAt s pat i = true ↔ pat <+: s.drop i := by
  simp [matchAt, List.isPrefixOf_iff_prefix]

theorem matchAt_zero {s pat : Bytes} : matchAt s pat 0 = pat.isPrefixOf s := rfl

theorem matchAt_cons_succ {c : Char} {s pat : Bytes} {j : Nat} :
    matchAt (c :: s) pat (j + 1) = matchAt s pat j := rfl

theorem matchAt_append {a t pat : Bytes} {i : Nat} (h : matchAt a pat i = true) :
    matchAt (a ++ t) pat i = true := by
  rw [matchAt_iff] at h ⊢
  rw [List.drop_append_eq_append_drop]
  exact h.trans (List.prefix_append _ _)

theorem matchAt_length {s pat : Bytes} {i : Nat} (hp : pat ≠ [])
    (h : matchAt s pat i = true) : i + pat.length ≤ s.length := by
  rw [matchAt_iff] at h
  have h1 := h.length_le
  have h2 : 0 < pat.length := List.length_pos.mpr hp
  rw [List.length_drop] at h1
  omega

theorem matchAt_take {s pat : Bytes} {i n : Nat} (h : matchAt s pat i = true)
    (hn : i + pat.length ≤ n) : matchAt (s.take n) pat i = true := by
  rw [matchAt_iff] at h ⊢
  rw [List.drop_take]
  obtain ⟨t, ht⟩ := h
  rw [← ht, List.take_append_eq_append_take, List.take_of_length_le (by omega)]
  exact List.prefix_append _ _

theorem firstOccur_eq_some {s pat : Bytes} {i : Nat} (h : firstOccur s pat = some i) :
    matchAt s pat i = true ∧ ∀ j, j < i → matchAt s pat j = false := by
  induction s generalizing i with
  | nil =>
    simp only [firstOccur] at h
    by_cases hp : pat.isEmpty
    · rw [if_pos hp] at h
      cases h
      rw [List.isEmpty_iff] at hp
      subst hp
      exact ⟨rfl, by omega⟩
    · rw [if_neg hp] at h
      cases h
  | cons c rest ih =>
    simp only [firstOccur] at h
    by_cases hp : pat.isPrefixOf (c :: rest) = true
    · rw [if_pos hp] at h
      cases h
      exact ⟨hp, by omega⟩
    · rw [if_neg hp, Option.map_eq_some'] at h
      obtain ⟨i0, h0, rfl⟩ := h
      obtain ⟨hm, hmin⟩ := ih h0
      refine ⟨by rw [matchAt_cons_succ]; exact hm, ?_⟩
      intro j hj
      cases j with
      | zero => rw [matchAt_zero]; exact Bool.eq_false_iff.mpr hp
      | succ j => rw [matchAt_cons_succ]; exact hmin j (by omega)

theorem firstOccur_eq_none {s pat : Bytes} (h : firstOccur s pat = none) :
    ∀ j, matchAt s pat j = false := by
  induction s with
  | nil =>
    intro j
    simp only [firstOccur] at h
    by_cases hp : pat.isEmpty
    · rw [if_pos hp] at h; cases h
    · rw [List.isEmpty_iff] at hp
      rw [matchAt, List.drop_nil]
      cases pat with
      | nil => exact absurd rfl hp
      | cons p ps => rfl
  | cons c rest ih =>
    intro j
    simp only [firstOccur] at h
    by_cases hp : pat.isPrefixOf (c :: rest) = true
    · rw [if_pos hp] at h; cases h
    · rw [if_neg hp, Option.map_eq_none'] at h
      cases j with
      | zero => rw [matchAt_zero]; exact Bool.eq_false_iff.mpr hp
      | succ j => rw [matchAt_cons_succ]; exact ih h j

theorem firstOccur_of_spec {s pat : Bytes} {i : Nat} (hm : matchAt s pat i = true)
    (hmin : ∀ j, j < i → matchAt s pat j = false) : firstOccur s pat = some i := by
  induction s generalizing i with
  | nil =>
    have hpat : pat = [] := by
      rw [matchAt, List.drop_nil] at hm
      cases pat with
      | nil => rfl
      | cons p ps => cases hm
    subst hpat
    have hi : i = 0 := by
      by_contra h0
      have := hmin 0 (Nat.pos_of_ne_zero h0)
      cases this
    subst hi
    rfl
  | cons c rest ih =>
    cases i with
    | zero =>
      rw [matchAt_zero] at hm
      simp only [firstOccur]
      rw [if_pos hm]
    | succ i =>
      have h0 : pat.isPrefixOf (c :: rest) = false := by
        rw [← matchAt_zero]
        exact hmin 0 (by omega)
      have hm' : matchAt rest pat i = true := by rwa [matchAt_cons_succ] at hm
      have hmin' : ∀ j, j < i → matchAt rest pat j = false := by
        intro j hj
        rw [← matchAt_cons_succ (c := c)]
        exact hmin (j + 1) (by omega)
      simp only [firstOccur]
      rw [if_neg (by simp [h0]), ih hm' hmin']
      rfl

theorem firstOccur_none_of {s pat : Bytes} (h : ∀ j, matchAt s pat j = false) :
    firstOccur s pat = none := by
  cases ho : firstOccur s pat with
  | none => rfl
  | some i =>
    have := (firstOccur_eq_some ho).1
    rw [h i] at this
    cases this

/-- A prefix of a prompt-free string is prompt-free. -/
theorem firstOccur_none_of_pref {s q pat : Bytes} (h : firstOccur s pat = none)
    (hq : q <+: s) : firstOccur q pat = none := by
  obtain ⟨t, ht⟩ := hq
  refine firstOccur_none_of (fun j => ?_)
  by_contra hc
  rw [Bool.not_eq_false] at hc
  have h2 := matchAt_append (t := t) hc
  rw [ht, firstOccur_eq_none h j] at h2
  cases h2

/-- If the first occurrence of `pat` in `a ++ pat` is the final position, then
it is still the first occurrence after appending any tail. -/
theorem firstOccur_append_tail {a t pat : Bytes}
    (h : firstOccur (a ++ pat) pat = some a.length) :
    firstOccur (a ++ pat ++ t) pat = some a.length := by
  obtain ⟨hm, hmin⟩ := firstOccur_eq_some h
  refine firstOccur_of_spec (matchAt_append hm) ?_
  intro j hj
  by_contra hc
  rw [Bool.not_eq_false] at hc
  have hlen : j + pat.length ≤ (a ++ pat).length := by
    rw [List.length_append]; omega
  have h2 := matchAt_take hc hlen
  rw [List.take_left, hmin j hj] at h2
  cases h2

/-- A strictly shorter prefix of `a ++ pat` contains no occurrence of `pat`
when the first occurrence in `a ++ pat` is the final position. -/
theorem firstOccur_none_of_short {a q pat : Bytes}
    (h : firstOccur (a ++ pat) pat = some a.length)
    (hq : q <+: a ++ pat) (hlen : q.length < a.length + pat.length) :
    firstOccur q pat = none := by
  obtain ⟨hma, hmin⟩ := firstOccur_eq_some h
  obtain ⟨t, ht⟩ := hq
  refine firstOccur_none_of (fun j => ?_)
  by_contra hc
  rw [Bool.not_eq_false] at hc
  have hp : pat ≠ [] := by
    intro hpat
    subst hpat
    simp only [List.length_nil, Nat.add_zero] at hlen
    have h3 := hmin q.length hlen
    have h4 : matchAt (a ++ []) ([] : Bytes) q.length = true := by
      simp [matchAt, List.isPrefixOf_iff_prefix]
    rw [h4] at h3
    cases h3
  have hj : j + pat.length ≤ q.length := matchAt_length hp hc
  have h2 := matchAt_append (t := t) hc
  rw [ht, hmin j (by omega)] at h2
  cases h2

/-- Decompose a prefix of `x ++ y` that is at least as long as `x`. -/
theorem prefix_decompose {q x y : Bytes} (hq : q <+: x ++ y) (hlen : x.length ≤ q.length) :
    ∃ r, q = x ++ r ∧ r <+: y := by
  have hx : x <+: q := List.prefix_of_prefix_length_le (List.prefix_append x y) hq hlen
  obtain ⟨r, rfl⟩ := hx
  refine ⟨r, rfl, ?_⟩
  obtain ⟨t, ht⟩ := hq
  rw [List.append_assoc] at ht
  exact ⟨t, List.append_cancel_left ht⟩

/-- A prefix of `x ++ y` no longer than `x` is a prefix of `x`. -/
theorem prefix_short {q x y : Bytes} (hq : q <+: x ++ y) (hlen : q.length ≤ x.length) :
    q <+: x := by
  have h1 := List.prefix_iff_eq_take.mp hq
  rw [List.take_append_eq_append_take, Nat.sub_eq_zero_of_le hlen, List.take_zero,
    List.append_nil] at h1
  rw [h1]
  exact List.take_prefix _ _

/-! ### Unfolding the prompt scanner -/

theorem PROMPT_ne : PROMPT ≠ [] := by simp [PROMPT]

theorem PROMPT_len_pos : 0 < PROMPT.length := by simp [PROMPT]

theorem firstOccur_PROMPT_le {s : Bytes} {i : Nat} (h : firstOccur s PROMPT = some i) :
    i + PROMPT.length ≤ s.length :=
  matchAt_length PROMPT_ne (firstOccur_eq_some h).1

theorem scanLoopF_congr : ∀ (f1 f2 : Nat) (pwds : List (Bytes × Bytes)) (buf : Bytes),
    buf.length < f1 → buf.length < f2 → scanLoopF f1 pwds buf = scanLoopF f2 pwds buf := by
  intro f1
  induction f1 with
  | zero => intro f2 pwds buf h1; omega
  | succ f1 ih =>
    intro f2 pwds buf h1 h2
    cases f2 with
    | zero => omega
    | succ f2 =>
      cases ho : firstOccur buf PROMPT with
      | none => simp only [scanLoopF, ho]
      | some i =>
        cases hp : popKey pwds (afterLastNL (buf.take i)) with
        | none => simp only [scanLoopF, ho, hp]
        | some pr =>
          obtain ⟨p1, p2⟩ := pr
          have hle := firstOccur_PROMPT_le ho
          have hpos := PROMPT_len_pos
          simp only [scanLoopF, ho, hp]
          rw [ih f2 p2 (buf.drop (i + PROMPT.length))
            (by rw [List.length_drop]; omega) (by rw [List.length_drop]; omega)]

theorem scanLoop_no_prompt {pwds : List (Bytes × Bytes)} {buf : Bytes}
    (h : firstOccur buf PROMPT = none) : scanLoop pwds buf = some (pwds, buf, []) := by
  simp [scanLoop, scanLoopF, h]

theorem scanLoop_step {pwds pwds2 : List (Bytes × Bytes)} {buf p : Bytes} {i : Nat}
    (h : firstOccur buf PROMPT = some i)
    (hpop : popKey pwds (afterLastNL (buf.take i)) = some (p, pwds2)) :
    scanLoop pwds buf = (scanLoop pwds2 (buf.drop (i + PROMPT.length))).map
      (fun r => (r.1, r.2.1, (p ++ [chLF]) :: r.2.2)) := by
  have hle := firstOccur_PROMPT_le h
  have hpos := PROMPT_len_pos
  have hlt : (buf.drop (i + PROMPT.length)).length < buf.length := by
    rw [List.length_drop]; omega
  have e1 : scanLoop pwds buf =
      match scanLoopF buf.length pwds2 (buf.drop (i + PROMPT.length)) with
      | none => none
      | some (pwds3, buf3, ws) => some (pwds3, buf3, (p ++ [chLF]) :: ws) := by
    simp only [scanLoop, scanLoopF, h, hpop]
  have e2 : scanLoopF buf.length pwds2 (buf.drop (i + PROMPT.length)) =
      scanLoop pwds2 (buf.drop (i + PROMPT.length)) :=
    scanLoopF_congr _ _ _ _ (by omega) (by omega)
  rw [e1, e2]
  cases hres : scanLoop pwds2 (buf.drop (i + PROMPT.length)) with
  | none => rfl
  | some r =>
    obtain ⟨a, b, c⟩ := r
    rfl

/-! ### Association-list (Python dict) helpers -/

theorem popKey_of_lookup {m : List (Bytes × Bytes)} {k v : Bytes}
    (h : lookupKey m k = some v) : popKey m k = some (v, eraseKey m k) := by
  induction m with
  | nil => cases h
  | cons kv rest ih =>
    obtain ⟨k0, v0⟩ := kv
    by_cases he : k0 = k
    · simp only [lookupKey, if_pos he] at h
      cases h
      simp [popKey, eraseKey, he]
    · simp only [lookupKey, if_neg he] at h
      simp [popKey, eraseKey, he, ih h]

theorem lookupKey_eraseKey_ne {m : List (Bytes × Bytes)} {k k2 : Bytes} (h : k2 ≠ k) :
    lookupKey (eraseKey m k) k2 = lookupKey m k2 := by
  induction m with
  | nil => rfl
  | cons kv rest ih =>
    obtain ⟨k0, v0⟩ := kv
    by_cases he : k0 = k
    · subst he
      have hne : k0 ≠ k2 := Ne.symm h
      simp [eraseKey, lookupKey, hne]
    · by_cases he2 : k0 = k2 <;> simp [eraseKey, lookupKey, he, he2, ih, h]

theorem lookupKey_removeKeys {m : List (Bytes × Bytes)} {ks : List Bytes} {k : Bytes}
    (h : k ∉ ks) : lookupKey (removeKeys m ks) k = lookupKey m k := by
  induction ks generalizing m with
  | nil => rfl
  | cons k1 ks ih =>
    have h1 : k ≠ k1 := fun hc => h (by simp [hc])
    have h2 : k ∉ ks := fun hc => h (by simp [hc])
    show lookupKey (removeKeys (eraseKey m k1) ks) k = lookupKey m k
    rw [ih h2, lookupKey_eraseKey_ne h1]

theorem removeKeys_append (m : List (Bytes × Bytes)) (a b : List Bytes) :
    removeKeys m (a ++ b) = removeKeys (removeKeys m a) b := by
  simp [removeKeys, List.foldl_append]

/-! ### The canonical prompt stream -/

theorem consume_split : ∀ (bs : List PromptBlock) (rest q : Bytes),
    q <+: streamOf bs rest →
    ∃ bs2, bs = (consume bs q).1 ++ bs2 ∧
      q = ((consume bs q).1.map blockStr).flatten ++ (consume bs q).2 ∧
      (consume bs q).2 <+: streamOf bs2 rest ∧
      ∀ b bs3, bs2 = b :: bs3 → (consume bs q).2.length < b.pre.length + PROMPT.length := by
  intro bs
  induction bs with
  | nil =>
    intro rest q hq
    exact ⟨[], rfl, by simp [consume], hq, by intro b bs3 h; cases h⟩
  | cons b bs ih =>
    intro rest q hq
    by_cases hc : b.pre.length + PROMPT.length ≤ q.length
    · have hlen : (blockStr b).length ≤ q.length := by
        rw [blockStr, List.length_append]; exact hc
      have hq' : q <+: blockStr b ++ streamOf bs rest := by
        rw [streamOf, List.map_cons, List.flatten_cons, List.append_assoc] at hq
        exact hq
      obtain ⟨r, rfl, hr⟩ := prefix_decompose hq' hlen
      have hdrop : (blockStr b ++ r).drop (b.pre.length + PROMPT.length) = r := by
        rw [show b.pre.length + PROMPT.length = (blockStr b).length by
          rw [blockStr, List.length_append], List.drop_left]
      obtain ⟨bs2, heq, hflat, hpre, hbound⟩ := ih rest _ hr
      refine ⟨bs2, ?_, ?_, ?_, ?_⟩
      · simp only [consume, if_pos hc, hdrop]
        rw [List.cons_append, ← heq]
      · simp only [consume, if_pos hc, hdrop, List.map_cons, List.flatten_cons,
          List.append_assoc]
        rw [← hflat]
      · simp only [consume, if_pos hc, hdrop]
        exact hpre
      · simp only [consume, if_pos hc, hdrop]
        exact hbound
    · refine ⟨b :: bs, ?_, ?_, ?_, ?_⟩
      · simp [consume, hc]
      · simp [consume, hc]
      · simp only [consume, if_neg hc]
        exact hq
      · intro b0 bs3 h0
        cases h0
        simp only [consume, if_neg hc]
        omega

theorem streamOf_nil (rest : Bytes) : streamOf [] rest = rest := by simp [streamOf]

theorem streamOf_cons (b : PromptBlock) (bs : List PromptBlock) (rest : Bytes) :
    streamOf (b :: bs) rest = blockStr b ++ streamOf bs rest := by
  simp [streamOf]

theorem removeKeys_cons (m : List (Bytes × Bytes)) (k : Bytes) (ks : List Bytes) :
    removeKeys m (k :: ks) = removeKeys (eraseKey m k) ks := rfl

theorem blockStr_length (b : PromptBlock) :
    (blockStr b).length = b.pre.length + PROMPT.length := by
  simp [blockStr]

/-- Scanning any prefix `q` of a canonical stream consumes exactly the blocks
completely contained in `q`, sends their passwords in order, and leaves the
partial residue in the buffer. -/
theorem scanLoop_canonical : ∀ (bs : List PromptBlock) (rest q : Bytes)
    (pwds : List (Bytes × Bytes)),
    (∀ b ∈ bs, goodBlock b) →
    firstOccur rest PROMPT = none →
    (bs.map blockKey).Nodup →
    (∀ b ∈ bs, lookupKey pwds (blockKey b) = some b.pw) →
    q <+: streamOf bs rest →
    scanLoop pwds q = some (removeKeys pwds ((consume bs q).1.map blockKey),
      (consume bs q).2, (consume bs q).1.map (fun b => b.pw ++ [chLF])) := by
  intro bs
  induction bs with
  | nil =>
    intro rest q pwds _ hrest _ _ hq
    rw [streamOf_nil] at hq
    rw [scanLoop_no_prompt (firstOccur_none_of_pref hrest hq)]
    rfl
  | cons b bs ih =>
    intro rest q pwds hgood hrest hnd hlook hq
    rw [streamOf_cons] at hq
    by_cases hc : b.pre.length + PROMPT.length ≤ q.length
    · obtain ⟨r, rfl, hr⟩ := prefix_decompose hq (by rw [blockStr_length]; exact hc)
      have hocc : firstOccur (blockStr b ++ r) PROMPT = some b.pre.length := by
        have hg : firstOccur (b.pre ++ PROMPT) PROMPT = some b.pre.length :=
          hgood b (by simp)
        exact firstOccur_append_tail hg
      have htake : (blockStr b ++ r).take b.pre.length = b.pre := by
        rw [blockStr, List.append_assoc, List.take_left]
      have hpop : popKey pwds (afterLastNL ((blockStr b ++ r).take b.pre.length)) =
          some (b.pw, eraseKey pwds (blockKey b)) := by
        rw [htake]
        exact popKey_of_lookup (hlook b (by simp))
      have hdrop : (blockStr b ++ r).drop (b.pre.length + PROMPT.length) = r := by
        rw [← blockStr_length, List.drop_left]
      have hkeyne : ∀ b2 ∈ bs, blockKey b2 ≠ blockKey b := by
        intro b2 hb2 hctr
        rw [List.map_cons, List.nodup_cons] at hnd
        exact hnd.1 (hctr ▸ List.mem_map_of_mem blockKey hb2)
      have hlook2 : ∀ b2 ∈ bs, lookupKey (eraseKey pwds (blockKey b)) (blockKey b2)
          = some b2.pw := by
        intro b2 hb2
        rw [lookupKey_eraseKey_ne (hkeyne b2 hb2)]
        exact hlook b2 (by simp [hb2])
      have hih := ih rest r (eraseKey pwds (blockKey b))
        (fun b2 hb2 => hgood b2 (by simp [hb2])) hrest
        (by rw [List.map_cons, List.nodup_cons] at hnd; exact hnd.2) hlook2 hr
      rw [scanLoop_step hocc hpop, hdrop, hih]
      simp only [consume, if_pos hc, hdrop, Option.map_some']
      rw [List.map_cons, removeKeys_cons, List.map_cons]
    · have hqb : q <+: blockStr b := by
        refine prefix_short hq ?_
        rw [blockStr_length]
        omega
      have hnone : firstOccur q PROMPT = none := by
        have hg : firstOccur (b.pre ++ PROMPT) PROMPT = some b.pre.length :=
          hgood b (by simp)
        exact firstOccur_none_of_short hg (by rwa [blockStr] at hqb) (by omega)
      rw [scanLoop_no_prompt hnone]
      simp [consume, hc, removeKeys]

theorem streamOf_append (a b : List PromptBlock) (rest : Bytes) :
    streamOf (a ++ b) rest = (a.map blockStr).flatten ++ streamOf b rest := by
  simp [streamOf]

/-- Once the password map is empty, `_write_parent` is pure passthrough: the
state (including the prompt fragment buffer) is never touched again and no
master-side writes occur. -/
theorem writeParentRun_empty : ∀ (chunks : List Bytes) (st : InjState),
    st.passwords = [] → st.add_cr = false →
    writeParentRun st chunks = some (st, chunks.flatten, []) := by
  intro chunks
  induction chunks with
  | nil => intro st h hcr; rfl
  | cons c cs ih =>
    intro st h hcr
    have h1 : writeParent st c = some (st, c, []) := by
      rw [writeParent, hcr]
      simp [h]
    simp only [writeParentRun, h1, ih st h hcr, List.flatten_cons, List.append_nil]

/-- Feeding a canonical stream (`bs` well-formed prompts, then prompt-free
residue) to `_write_parent` in arbitrary chunks sends exactly the passwords
of `bs`, in order, each with a trailing newline; the parent-side sink gets
the stream verbatim. -/
theorem writeParentRun_canonical : ∀ (chunks : List Bytes) (bs : List PromptBlock)
    (rest part0 : Bytes) (pwds : List (Bytes × Bytes)),
    (∀ b ∈ bs, goodBlock b) →
    firstOccur rest PROMPT = none →
    (bs.map blockKey).Nodup →
    (∀ b ∈ bs, lookupKey pwds (blockKey b) = some b.pw) →
    part0 ++ chunks.flatten = streamOf bs rest →
    (∀ b bs2, bs = b :: bs2 → part0.length < b.pre.length + PROMPT.length) →
    ∃ stF, writeParentRun ⟨part0, pwds, false⟩ chunks =
      some (stF, chunks.flatten, bs.map (fun b => b.pw ++ [chLF])) ∧
      stF.passwords = removeKeys pwds (bs.map blockKey) := by
  intro chunks
  induction chunks with
  | nil =>
    intro bs rest part0 pwds hgood hrest hnd hlook hstream hcover
    have hbs : bs = [] := by
      cases bs with
      | nil => rfl
      | cons b bs2 =>
        have h1 := hcover b bs2 rfl
        have h2 : part0 = streamOf (b :: bs2) rest := by
          simpa using hstream
        have h3 : (blockStr b).length ≤ part0.length := by
          rw [h2, streamOf_cons, List.length_append]
          omega
        rw [blockStr_length] at h3
        omega
    subst hbs
    exact ⟨⟨part0, pwds, false⟩, rfl, rfl⟩
  | cons c cs ih =>
    intro bs rest part0 pwds hgood hrest hnd hlook hstream hcover
    by_cases hpe : pwds = []
    · have hbs : bs = [] := by
        cases bs with
        | nil => rfl
        | cons b bs2 =>
          have := hlook b (by simp)
          rw [hpe] at this
          cases this
      subst hbs
      subst hpe
      refine ⟨⟨part0, [], false⟩, ?_, rfl⟩
      exact writeParentRun_empty (c :: cs) ⟨part0, [], false⟩ rfl rfl
    · have hq : part0 ++ c <+: streamOf bs rest := by
        rw [← hstream, List.flatten_cons, ← List.append_assoc]
        exact List.prefix_append _ _
      have hscan := scanLoop_canonical bs rest (part0 ++ c) pwds hgood hrest hnd hlook hq
      obtain ⟨bs2, hsplit, hflat, hpre, hbound⟩ := consume_split bs rest (part0 ++ c) hq
      set c1 := (consume bs (part0 ++ c)).1 with hc1
      set rs := (consume bs (part0 ++ c)).2 with hrs
      have hw : writeParent ⟨part0, pwds, false⟩ c =
          some (⟨rs, removeKeys pwds (c1.map blockKey), false⟩, c,
            c1.map (fun b => b.pw ++ [chLF])) := by
        rw [writeParent]
        simp only []
        rw [if_neg (by simpa [List.isEmpty_iff] using hpe)]
        rw [show (if false = true then lfToCrLf c else c) = c from rfl]
        rw [hscan]
      have hnd' := hsplit ▸ hnd
      rw [List.map_append, List.nodup_append] at hnd'
      have hlook2 : ∀ b ∈ bs2, lookupKey
          (removeKeys pwds (c1.map blockKey)) (blockKey b) = some b.pw := by
        intro b hb
        rw [lookupKey_removeKeys (hnd'.2.2.symm (List.mem_map_of_mem blockKey hb))]
        exact hlook b (by rw [hsplit]; exact List.mem_append_right _ hb)
      have hstream2 : rs ++ cs.flatten = streamOf bs2 rest := by
        have h1 : (part0 ++ c) ++ cs.flatten = streamOf bs rest := by
          rw [← hstream, List.flatten_cons]
          simp [List.append_assoc]
        rw [hsplit, streamOf_append] at h1
        rw [hflat, List.append_assoc] at h1
        exact List.append_cancel_left h1
      obtain ⟨stF, hrun, hpw⟩ := ih bs2 rest rs (removeKeys pwds (c1.map blockKey))
        (fun b hb => hgood b (by rw [hsplit]; exact List.mem_append_right _ hb))
        hrest hnd'.2.1 hlook2 hstream2 hbound
      refine ⟨stF, ?_, ?_⟩
      · simp only [writeParentRun, hw, hrun, List.flatten_cons]
        rw [hsplit, List.map_append]
      · rw [hpw, ← removeKeys_append, ← List.map_append, ← hsplit]

/-- C1 (amended): a stream of `k` well-formed prompts for distinct keys of the
password map, fed to `_write_parent` in arbitrary chunks, produces exactly `k`
master-side password writes, in stream order, each the looked-up password
followed by a newline (prompts sharing a chunk are all serviced); the
parent-side sink receives exactly the input bytes, so it contains no password
bytes beyond those already present in the input stream itself. -/
theorem C1_prompt_injection (bs : List PromptBlock) (rest : Bytes)
    (chunks : List Bytes) (pwds : List (Bytes × Bytes))
    (hgood : ∀ b ∈ bs, goodBlock b)
    (hrest : firstOccur rest PROMPT = none)
    (hnd : (bs.map blockKey).Nodup)
    (hlook : ∀ b ∈ bs, lookupKey pwds (blockKey b) = some b.pw)
    (hstream : chunks.flatten = streamOf bs rest) :
    ∃ stF, writeParentRun ⟨[], pwds, false⟩ chunks =
        some (stF, chunks.flatten, bs.map (fun b => b.pw ++ [chLF])) ∧
      stF.passwords = removeKeys pwds (bs.map blockKey) ∧
      (bs.map (fun b => b.pw ++ [chLF])).length = bs.length := by
  obtain ⟨stF, h1, h2⟩ := writeParentRun_canonical chunks bs rest [] pwds hgood hrest hnd
    hlook (by simpa using hstream)
    (fun b bs2 _ => by
      have := PROMPT_len_pos
      simp only [List.length_nil]
      omega)
  exact ⟨stF, h1, h2, by simp⟩

/-- Witness for C1: the two-prompt fixture, chunked mid-prompt. -/
theorem C1_prompt_injection_witness :
    ∃ stF, writeParentRun ⟨[], demoPwds, false⟩ [demoStream.take 20, demoStream.drop 20] =
        some (stF, [demoStream.take 20, demoStream.drop 20].flatten,
          [demoB1, demoB2].map (fun b => b.pw ++ [chLF])) ∧
      stF.passwords = removeKeys demoPwds ([demoB1, demoB2].map blockKey) ∧
      ([demoB1, demoB2].map (fun b => b.pw ++ [chLF])).length = [demoB1, demoB2].length :=
  C1_prompt_injection [demoB1, demoB2] "tail".toList
    [demoStream.take 20, demoStream.drop 20] demoPwds
    (by decide) (by decide) (by decide) (by decide) (by decide)

/-- Counterexample for C1 as stated: a stream that itself contains the
password bytes before a single well-formed prompt for a known key.  The run
services the prompt correctly, but the parent-side sink output (the stream
verbatim) does contain the password byte sequence. -/
theorem C1_counterexample :
    goodBlock ⟨"pw".toList ++ [chLF] ++ "u@h".toList, "pw".toList⟩ ∧
    blockKey ⟨"pw".toList ++ [chLF] ++ "u@h".toList, "pw".toList⟩ = "u@h".toList ∧
    writeParentRun ⟨[], [("u@h".toList, "pw".toList)], false⟩
        [blockStr ⟨"pw".toList ++ [chLF] ++ "u@h".toList, "pw".toList⟩] =
      some (⟨[], [], false⟩, blockStr ⟨"pw".toList ++ [chLF] ++ "u@h".toList, "pw".toList⟩,
        ["pw".toList ++ [chLF]]) ∧
    occursIn (blockStr ⟨"pw".toList ++ [chLF] ++ "u@h".toList, "pw".toList⟩)
      "pw".toList = true := by
  refine ⟨by decide, by decide, by decide, by decide⟩

/-- C4 (amended): in the `_write_parent` call that consumes the last
password, the prompt fragment buffer is trimmed to the residue after the
matched prompt, not reset to empty; and once the map is empty every later
call leaves the whole state (buffer included) untouched, appending and
scanning nothing and writing nothing to the master. -/
theorem C4_buffer_after_last_password :
    (∀ (st : InjState) (d : Bytes), st.passwords = [] →
      writeParent st d = some (st, if st.add_cr then lfToCrLf d else d, [])) ∧
    writeParent ⟨[], [("u@h".toList, "pw".toList)], false⟩
        ("u@h".toList ++ PROMPT ++ "RESIDUE".toList) =
      some (⟨"RESIDUE".toList, [], false⟩, "u@h".toList ++ PROMPT ++ "RESIDUE".toList,
        ["pw".toList ++ [chLF]]) := by
  constructor
  · intro st d h
    rw [writeParent]
    simp [h]
  · decide

/-- Witness for C4: a call on an already-empty map leaves the buffer alone. -/
theorem C4_buffer_after_last_password_witness :
    writeParent ⟨"B".toList, [], false⟩ "x".toList =
      some (⟨"B".toList, [], false⟩, "x".toList, []) := by
  have h := C4_buffer_after_last_password.1 ⟨"B".toList, [], false⟩ "x".toList rfl
  exact h

/-- Counterexample for C4 as stated: after the final password is consumed the
buffer holds the residue `"RESIDUE"`, which is not the empty buffer the claim
asserts. -/
theorem C4_counterexample :
    writeParent ⟨[], [("u@h".toList, "pw".toList)], false⟩
        ("u@h".toList ++ PROMPT ++ "RESIDUE".toList) =
      some (⟨"RESIDUE".toList, [], false⟩, "u@h".toList ++ PROMPT ++ "RESIDUE".toList,
        ["pw".toList ++ [chLF]]) ∧ ("RESIDUE".toList : Bytes) ≠ [] := by
  refine ⟨by decide, by decide⟩

/-! ### The relay loop of `_spawn_with_files` (jumper.py lines 234-271) -/

theorem writeParent_empty (st : InjState) (d : Bytes) (h : st.passwords = []) :
    writeParent st d = some (st, if st.add_cr then lfToCrLf d else d, []) := by
  rw [writeParent]
  simp [h]

theorem stdinStep_fw {st : RelayState} {sr : Option Bytes}
    (h : (stdinStep st sr).1 ≠ []) : st.readable = true := by
  cases sr with
  | none => exact absurd rfl h
  | some d =>
    by_cases hr : st.readable = true
    · exact hr
    · exact absurd (by simp [stdinStep, hr]) h

theorem relayRound_facts {st st1 : RelayState} {mr sr : Option Bytes} {out : Bytes}
    {ws fw : List Bytes} {cont : Bool}
    (hP : st.readable = true → st.inj.passwords = [])
    (h : relayRound st mr sr = some (st1, out, ws, fw, cont)) :
    (st1.readable = true → st1.inj.passwords = []) ∧
    (st.inj.passwords = [] → st1.inj.passwords = []) ∧
    (fw ≠ [] → st1.readable = true) := by
  cases mr with
  | none =>
    simp only [relayRound, masterStep, Option.some.injEq, Prod.mk.injEq] at h
    obtain ⟨h1, _, _, h4, _⟩ := h
    subst h1
    refine ⟨hP, fun he => he, ?_⟩
    intro hf
    rw [← h4] at hf
    exact stdinStep_fw hf
  | some d =>
    simp only [relayRound, masterStep] at h
    cases hw : writeParent st.inj d with
    | none => rw [hw] at h; cases h
    | some r =>
      obtain ⟨inj2, o, w⟩ := r
      rw [hw] at h
      simp only [Option.some.injEq, Prod.mk.injEq] at h
      obtain ⟨h1, _, _, h4, _⟩ := h
      subst h1
      refine ⟨?_, ?_, ?_⟩
      · intro hr
        by_cases hemp : st.inj.passwords = []
        · rw [writeParent_empty st.inj d hemp] at hw
          simp only [Option.some.injEq, Prod.mk.injEq] at hw
          rw [← hw.1]
          exact hemp
        · exfalso
          simp only [List.isEmpty_iff, if_neg hemp] at hr
          rw [hP hr] at hemp
          exact hemp rfl
      · intro hemp
        rw [writeParent_empty st.inj d hemp] at hw
        simp only [Option.some.injEq, Prod.mk.injEq] at hw
        rw [← hw.1]
        exact hemp
      · intro hf
        rw [← h4] at hf
        exact stdinStep_fw hf

theorem relayRun_gate : ∀ (evs : List (Option Bytes × Option Bytes)) (st st' : RelayState)
    (out : Bytes) (ws fw : List Bytes),
    (st.readable = true → st.inj.passwords = []) →
    relayRun st evs = some (st', out, ws, fw) →
    (st'.readable = true → st'.inj.passwords = []) ∧
    (st.inj.passwords = [] → st'.inj.passwords = []) ∧
    (st'.inj.passwords ≠ [] → fw = []) := by
  intro evs
  induction evs with
  | nil =>
    intro st st' out ws fw hP h
    simp only [relayRun, Option.some.injEq, Prod.mk.injEq] at h
    obtain ⟨h1, _, _, h4⟩ := h
    subst h1
    exact ⟨hP, fun he => he, fun _ => h4.symm⟩
  | cons ev evs ih =>
    intro st st' out ws fw hP h
    obtain ⟨mr, sr⟩ := ev
    simp only [relayRun] at h
    cases hr : relayRound st mr sr with
    | none =>
      simp only [hr] at h
      exact Option.noConfusion h
    | some r =>
      obtain ⟨st1, out1, ws1, fw1, cont⟩ := r
      simp only [hr] at h
      obtain ⟨f1, f2, f3⟩ := relayRound_facts hP hr
      cases cont with
      | true =>
        rw [if_pos rfl] at h
        cases hrec : relayRun st1 evs with
        | none =>
          simp only [hrec] at h
          exact Option.noConfusion h
        | some r2 =>
          obtain ⟨st2, out2, ws2, fw2⟩ := r2
          simp only [hrec, Option.some.injEq, Prod.mk.injEq] at h
          obtain ⟨h1, _, _, h4⟩ := h
          subst h1
          obtain ⟨g1, g2, g3⟩ := ih st1 st2 out2 ws2 fw2 f1 hrec
          refine ⟨g1, fun he => g2 (f2 he), ?_⟩
          intro hne
          have hfw2 := g3 hne
          have hfw1 : fw1 = [] := by
            by_contra hc
            exact hne (g2 (f1 (f3 hc)))
          rw [← h4, hfw1, hfw2]
          rfl
      | false =>
        rw [if_neg (by simp)] at h
        simp only [Option.some.injEq, Prod.mk.injEq] at h
        obtain ⟨h1, _, _, h4⟩ := h
        subst h1
        refine ⟨f1, f2, ?_⟩
        intro hne
        have hfw1 : fw1 = [] := by
          by_contra hc
          exact hne (f1 (f3 hc))
        rw [← h4, hfw1]

theorem relayRun_open : ∀ (evs : List (Option Bytes × Option Bytes)) (st : RelayState),
    st.readable = true → st.inj.passwords = [] → st.inj.add_cr = false →
    ∃ st2 out, relayRun st evs = some (st2, out, [], collectStdin evs) ∧
      st2.readable = true := by
  intro evs
  induction evs with
  | nil =>
    intro st h1 h2 h3
    exact ⟨st, [], rfl, h1⟩
  | cons ev evs ih =>
    intro st h1 h2 h3
    obtain ⟨⟨buf, pwds, acr⟩, rd⟩ := st
    simp only at h1 h2 h3
    subst h1
    subst h2
    subst h3
    obtain ⟨mr, sr⟩ := ev
    have hms : masterStep ⟨⟨buf, [], false⟩, true⟩ mr =
        some (⟨⟨buf, [], false⟩, true⟩, mr.getD [], []) := by
      cases mr with
      | none => rfl
      | some d =>
        simp only [masterStep, Option.getD]
        rw [writeParent_empty ⟨buf, [], false⟩ d rfl]
        rfl
    obtain ⟨st2, out2, hrec, hrd2⟩ := ih ⟨⟨buf, [], false⟩, true⟩ rfl rfl rfl
    cases sr with
    | none =>
      refine ⟨st2, mr.getD [] ++ out2, ?_, hrd2⟩
      simp [relayRun, relayRound, hms, stdinStep, hrec, collectStdin]
    | some d =>
      by_cases hd : d.isEmpty = true
      · refine ⟨⟨⟨buf, [], false⟩, true⟩, mr.getD [], ?_, rfl⟩
        simp [relayRun, relayRound, hms, stdinStep, hd, collectStdin]
      · refine ⟨st2, mr.getD [] ++ out2, ?_, hrd2⟩
        simp [relayRun, relayRound, hms, stdinStep, hd, collectStdin, hrec]

/-- C5 (amended): in the relay loop, (i) as long as the password map has not
been emptied, no stdin byte is ever forwarded to the PTY master (the trace is
arbitrary; any prefix of a longer trace is itself a trace); (ii) a master-fd
read performed when the map is already empty sets the `readable` gate; and
(iii) from any state with the gate set and the map empty, the gate stays set
and every stdin chunk of the trace (up to an EOF read) is forwarded to the
child unchanged, with no further master-side password writes. -/
theorem C5_stdin_gating :
    (∀ (pwds : List (Bytes × Bytes)) (evs : List (Option Bytes × Option Bytes))
        (st' : RelayState) (out : Bytes) (ws fw : List Bytes),
      relayRun ⟨⟨[], pwds, false⟩, false⟩ evs = some (st', out, ws, fw) →
      st'.inj.passwords ≠ [] → fw = []) ∧
    (∀ (st : RelayState) (d : Bytes)
        (r : RelayState × Bytes × List Bytes × List Bytes × Bool),
      st.inj.passwords = [] → relayRound st (some d) none = some r →
      r.1.readable = true) ∧
    (∀ (evs : List (Option Bytes × Option Bytes)) (st : RelayState),
      st.readable = true → st.inj.passwords = [] → st.inj.add_cr = false →
      ∃ st2 out, relayRun st evs = some (st2, out, [], collectStdin evs) ∧
        st2.readable = true) := by
  refine ⟨?_, ?_, relayRun_open⟩
  · intro pwds evs st' out ws fw h hne
    exact (relayRun_gate evs ⟨⟨[], pwds, false⟩, false⟩ st' out ws fw
      (by intro hc; cases hc) h).2.2 hne
  · intro st d r hemp h
    simp only [relayRound, masterStep] at h
    rw [writeParent_empty st.inj d hemp] at h
    simp only [Option.some.injEq] at h
    rw [← h]
    simp [hemp, List.isEmpty_iff]

/-- Witness for C5: a gated trace (no forwarding while the password remains),
and an open-gate trace forwarding one stdin chunk. -/
theorem C5_stdin_gating_witness :
    ([] : List Bytes) = [] ∧
    (∃ st2 out, relayRun ⟨⟨[], [], false⟩, true⟩
        [(some "m".toList, some "x".toList)] =
      some (st2, out, [], collectStdin [(some "m".toList, some "x".toList)]) ∧
      st2.readable = true) := by
  constructor
  · exact C5_stdin_gating.1 [("u@h".toList, "pw".toList)] [(none, some "x".toList)]
      ⟨⟨[], [("u@h".toList, "pw".toList)], false⟩, false⟩ [] [] [] (by decide) (by decide)
  · exact C5_stdin_gating.2.2 [(some "m".toList, some "x".toList)]
      ⟨⟨[], [], false⟩, true⟩ rfl rfl rfl

/-- Counterexample for C5 as stated: the last password is delivered by the
first round's master read, so the map is empty when the second round's stdin
data arrives, yet that stdin chunk is not forwarded (the gate only opens on
the next master read performed with the map already empty). -/
theorem C5_counterexample :
    relayRun ⟨⟨[], [("u@h".toList, "pw".toList)], false⟩, false⟩
        [(some ("u@h".toList ++ PROMPT), none), (none, some "x".toList)] =
      some (⟨⟨[], [], false⟩, false⟩, "u@h".toList ++ PROMPT,
        ["pw".toList ++ [chLF]], []) := by decide

theorem lfToCrLf_eq_flatMap (d : Bytes) :
    lfToCrLf d = d.flatMap (fun c => if c = chLF then [chCR, chLF] else [c]) := by
  induction d with
  | nil => rfl
  | cons c rest ih =>
    by_cases h : c = chLF <;> simp [lfToCrLf, h, ih]

/-- C6 (amended): when `add_cr` is set, `_write_parent` rewrites every LF of
its input to CR-LF (including an LF already preceded by CR, so CR-LF becomes
CR-CR-LF) before writing to the parent-side sink; when the flag is unset the
data passes through unmodified. -/
theorem C6_add_cr (st : InjState) (d : Bytes) (st2 : InjState) (out : Bytes)
    (ws : List Bytes) (h : writeParent st d = some (st2, out, ws)) :
    out = if st.add_cr
      then d.flatMap (fun c => if c = chLF then [chCR, chLF] else [c])
      else d := by
  rw [← lfToCrLf_eq_flatMap]
  simp only [writeParent] at h
  by_cases he : st.passwords.isEmpty = true
  · rw [if_pos he] at h
    simp only [Option.some.injEq, Prod.mk.injEq] at h
    exact h.2.1.symm
  · rw [if_neg he] at h
    cases hs : scanLoop st.passwords
        (st.prompt_buffer ++ if st.add_cr = true then lfToCrLf d else d) with
    | none =>
      rw [hs] at h
      exact Option.noConfusion h
    | some r =>
      obtain ⟨a, b, c⟩ := r
      rw [hs] at h
      simp only [Option.some.injEq, Prod.mk.injEq] at h
      exact h.2.1.symm

/-- Witness for C6: with the flag set, `"a" LF "b"` comes out `"a" CR LF "b"`. -/
theorem C6_add_cr_witness :
    ("a".toList ++ [chCR, chLF] ++ "b".toList : Bytes) =
      if (⟨[], [], true⟩ : InjState).add_cr
      then ("a".toList ++ [chLF] ++ "b".toList).flatMap
        (fun c => if c = chLF then [chCR, chLF] else [c])
      else "a".toList ++ [chLF] ++ "b".toList :=
  C6_add_cr ⟨[], [], true⟩ ("a".toList ++ [chLF] ++ "b".toList) ⟨[], [], true⟩
    ("a".toList ++ [chCR, chLF] ++ "b".toList) [] (by decide)

/-- Counterexample for C6 as stated: input that is already CR-LF is not left
unchanged; the bare-LF claim fails because the code replaces every LF. -/
theorem C6_counterexample :
    writeParent ⟨[], [], true⟩ [chCR, chLF] =
      some (⟨[], [], true⟩, [chCR, chCR, chLF], []) ∧
    ([chCR, chCR, chLF] : Bytes) ≠ [chCR, chLF] := by
  refine ⟨by decide, by decide⟩

/-! ### parse_uphps (jumper.py lines 496-554) -/

/-- C3 is a code bug: the splitter regex `\+(?!\+)` has no lookbehind, so the
second `+` of an escaped `++` is a split point.  The spec example
`srhaque@h1+admin:se++cret@h2` is split into three entries instead of two and
parsing then fails on the stray entry (`int("se+")` raises);  the unescape
`"++" -> "+"` that the help text promises exists but can never see a `++`.
For contrast, a chain without `++` parses as documented. -/
theorem C3_plus_escape_bug :
    splitUphps "srhaque@h1+admin:se++cret@h2".toList =
      ["srhaque@h1".toList, "admin:se+".toList, "cret@h2".toList] ∧
    parse_uphps (fun h => some h) "USER".toList "srhaque@h1+admin:se++cret@h2".toList =
      Except.error (UphpErr.badPort "admin:se+".toList) ∧
    unescapePlusPlus "se++cret".toList = "se+cret".toList ∧
    parse_uphps (fun h => some h) "USER".toList "srhaque@h1+admin:secret@h2".toList =
      Except.ok [⟨"srhaque".toList, [], "h1".toList, 22⟩,
        ⟨"admin".toList, "secret".toList, "h2".toList, 22⟩] := by
  refine ⟨by decide, by decide, by decide, by decide⟩

/-! ### Executor.check_output, remote backend (svty.py lines 215-241) -/

theorem pongLoop_all : ∀ (chunks : List Bytes) (token acc : Bytes),
    (∀ n, n + 1 < chunks.length →
      takeLast (acc ++ (chunks.take (n + 1)).flatten) (token.length + 2) ≠
        token ++ [chCR, chLF]) →
    chunks ≠ [] →
    takeLast (acc ++ chunks.flatten) (token.length + 2) = token ++ [chCR, chLF] →
    pongLoop token acc chunks = some (acc ++ chunks.flatten) := by
  intro chunks
  induction chunks with
  | nil => intro token acc _ hne; exact absurd rfl hne
  | cons c cs ih =>
    intro token acc hmin hne hfin
    cases cs with
    | nil =>
      simp only [List.flatten_cons, List.flatten_nil, List.append_nil] at hfin ⊢
      simp only [pongLoop, if_pos hfin]
    | cons c2 cs2 =>
      have h0 : takeLast (acc ++ c) (token.length + 2) ≠ token ++ [chCR, chLF] := by
        have := hmin 0 (by simp)
        simpa using this
      simp only [pongLoop, if_neg h0]
      have hrec := ih token (acc ++ c)
        (fun n hn => by
          have := hmin (n + 1) (by simpa using (by omega : n + 2 < (c2 :: cs2).length + 1))
          simpa [List.append_assoc] using this)
        (by simp)
        (by simpa [List.append_assoc] using hfin)
      simpa [pongLoop, List.append_assoc] using hrec

/-- C2: for any chunking of the scenario-3 stream whose proper accumulation
points never end with the sentinel tail, `check_output(["echo","foo"])`
accumulates the whole stream, normalises it, strips the echoed command, and
produces stdout `"foo"` with exit code 0. -/
theorem C2_remote_check_output (chunks : List Bytes)
    (hjoin : chunks.flatten = demoPongStream)
    (hmin : ∀ n, n + 1 < chunks.length →
      takeLast ((chunks.take (n + 1)).flatten) ("HI".toList.length + 2) ≠
        "HI".toList ++ [chCR, chLF]) :
    executorRemoteCheckOutput "HI".toList ["echo".toList, "foo".toList] chunks =
      some ("foo".toList, 0) := by
  have hne : chunks ≠ [] := by
    intro hc
    rw [hc] at hjoin
    exact absurd hjoin (by decide)
  have hpong : pongLoop "HI".toList [] chunks = some demoPongStream := by
    have := pongLoop_all chunks "HI".toList []
      (fun n hn => by simpa using hmin n hn) hne
      (by rw [List.nil_append, hjoin]; decide)
    rwa [List.nil_append, hjoin] at this
  simp only [executorRemoteCheckOutput, hpong]
  decide

/-- Witness for C2: the stream delivered in two pongs, split mid-line. -/
theorem C2_remote_check_output_witness :
    executorRemoteCheckOutput "HI".toList ["echo".toList, "foo".toList]
      [demoPongStream.take 11, demoPongStream.drop 11] = some ("foo".toList, 0) :=
  C2_remote_check_output [demoPongStream.take 11, demoPongStream.drop 11]
    (by decide)
    (by
      intro n hn
      have h0 : n = 0 := by
        simp at hn
        omega
      subst h0
      decide)

/-! ### Executor error policy and the local backend (svty.py lines 215-258) -/

theorem envGet_envSet_same (env : List (String × String)) (k v : String) :
    envGet (envSet env k v) k = some v := by
  induction env with
  | nil => simp [envSet, envGet]
  | cons kv rest ih =>
    obtain ⟨k0, v0⟩ := kv
    by_cases h : k0 = k <;> simp [envSet, envGet, h, ih]

theorem envGet_envSet_other (env : List (String × String)) (k v k2 : String)
    (h : k2 ≠ k) : envGet (envSet env k v) k2 = envGet env k2 := by
  induction env with
  | nil => simp [envSet, envGet, Ne.symm h]
  | cons kv rest ih =>
    obtain ⟨k0, v0⟩ := kv
    by_cases h0 : k0 = k
    · subst h0
      simp [envSet, envGet, Ne.symm h]
    · by_cases h2 : k0 = k2 <;> simp [envSet, envGet, h0, h2, ih, h]

/-- C10: the local backend of `Executor.check_output` sets `TZ=UTC` and
`LANG=en_GB.UTF-8` in the calling process's own global environment, which
therefore remains changed after the call; no other environment key and no
field of the Executor object is modified. -/
theorem C10_local_env_mutation (st : ExecutorState) (env : List (String × String))
    (res : String × Int) (ignore : Option (String → Int → Bool)) :
    (executorLocalCheckOutput st env res ignore).1 = st ∧
    envGet (executorLocalCheckOutput st env res ignore).2.1 "TZ" = some "UTC" ∧
    envGet (executorLocalCheckOutput st env res ignore).2.1 "LANG" = some "en_GB.UTF-8" ∧
    (∀ k, k ≠ "TZ" → k ≠ "LANG" →
      envGet (executorLocalCheckOutput st env res ignore).2.1 k = envGet env k) := by
  refine ⟨rfl, ?_, ?_, ?_⟩
  · show envGet (envSet (envSet env "TZ" "UTC") "LANG" "en_GB.UTF-8") "TZ" = some "UTC"
    rw [envGet_envSet_other _ _ _ _ (by decide), envGet_envSet_same]
  · exact envGet_envSet_same ..
  · intro k h1 h2
    show envGet (envSet (envSet env "TZ" "UTC") "LANG" "en_GB.UTF-8") k = envGet env k
    rw [envGet_envSet_other _ _ _ _ h2, envGet_envSet_other _ _ _ _ h1]

/-- Witness for C10 at a concrete environment, checking an unrelated key. -/
theorem C10_local_env_mutation_witness :
    (executorLocalCheckOutput ⟨false, "HI", false⟩ [("HOME", "/root")]
      ("out", 0) none).1 = ⟨false, "HI", false⟩ ∧
    envGet (executorLocalCheckOutput ⟨false, "HI", false⟩ [("HOME", "/root")]
      ("out", 0) none).2.1 "TZ" = some "UTC" ∧
    envGet (executorLocalCheckOutput ⟨false, "HI", false⟩ [("HOME", "/root")]
      ("out", 0) none).2.1 "LANG" = some "en_GB.UTF-8" ∧
    envGet (executorLocalCheckOutput ⟨false, "HI", false⟩ [("HOME", "/root")]
      ("out", 0) none).2.1 "HOME" = envGet [("HOME", "/root")] "HOME" := by
  have h := C10_local_env_mutation ⟨false, "HI", false⟩ [("HOME", "/root")] ("out", 0) none
  exact ⟨h.1, h.2.1, h.2.2.1, h.2.2.2 "HOME" (by decide) (by decide)⟩

/-! ### Terminal drivers (svty.py: ScreenTerminal, TMuxTerminal) -/

/-- C7 (amended): for `list_sessions` on both drivers, a command result with
exit code 127 whose output contains `"command not found"` is normalised to
`FileNotFoundError` (ProgramMissing), and an exit code 1 whose output starts
with one of the driver's recognised no-session prefixes is demoted to the
empty session list.  For `new_session`, however, the exception handler never
fires: its callee (`AbstractTerminal.call` / `Executor.exec`, i.e.
`subprocess.call` locally and the raise-free remote path) returns exit codes
without raising `CalledProcessError`, so a 127 "command not found" run is
returned as the plain exit code 127. -/
theorem C7_error_normalisation :
    (∀ (out : String) (rc : Int), rc = 127 → containsStr out "command not found" = true →
      tmuxListSessions out rc = .error (.programMissing (stripStr out))) ∧
    (∀ (out : String) (rc : Int), rc = 127 → containsStr out "command not found" = true →
      screenListSessions out rc = .error (.programMissing (stripStr out))) ∧
    (∀ (out : String) (rc : Int), rc = 1 →
      startsWithAny out ["error connecting to ", "no server running on",
        "failed to connect to server"] = true →
      tmuxListSessions out rc = .ok []) ∧
    (∀ (out : String) (rc : Int), rc = 1 →
      startsWithAny out ["There is a screen on", "There are screens on"] = false →
      startsWithAny out ["No Sockets found in", "No screen session found"] = true →
      screenListSessions out rc = .ok []) ∧
    (∀ rc : Int, screenNewSession rc = .ok rc ∧ tmuxNewSession rc = .ok rc) := by
  refine ⟨?_, ?_, ?_, ?_, fun rc => ⟨rfl, rfl⟩⟩
  · intro out rc h127 hocc
    subst h127
    simp [tmuxListSessions, tmuxLister, tmuxCheckOutput, checkOutputPolicy, hocc]
  · intro out rc h127 hocc
    subst h127
    simp [screenListSessions, screenCheckOutput, checkOutputPolicy, hocc]
  · intro out rc h1 hpre
    subst h1
    simp [tmuxListSessions, tmuxLister, tmuxCheckOutput, checkOutputPolicy, hpre,
      show startsWithAny out [] = false from rfl]
  · intro out rc h1 hsafe hunsafe
    subst h1
    simp [screenListSessions, screenCheckOutput, checkOutputPolicy, hsafe, hunsafe]
    rfl

set_option maxRecDepth 8192 in
/-- Witness for C7: a concrete missing-binary result, a concrete
no-session result, and a concrete `new_session` exit code. -/
theorem C7_error_normalisation_witness :
    tmuxListSessions "bash: tmux: command not found" 127 =
      .error (.programMissing (stripStr "bash: tmux: command not found")) ∧
    screenListSessions "No Sockets found in /run/screen." 1 = .ok [] ∧
    screenNewSession 127 = .ok 127 :=
  ⟨C7_error_normalisation.1 "bash: tmux: command not found" 127 rfl (by decide),
   C7_error_normalisation.2.2.2.1 "No Sockets found in /run/screen." 1 rfl
     (by decide) (by decide),
   (C7_error_normalisation.2.2.2.2 127).1⟩

/-- Counterexample for C7 as stated: a `new_session` run exiting 127 is
returned as the exit code 127, not normalised to the ProgramMissing error
(the `except CalledProcessError` handler is dead code because `call` never
raises that exception). -/
theorem C7_counterexample :
    screenNewSession 127 = Except.ok 127 ∧
    tmuxNewSession 127 = Except.ok 127 ∧
    (Except.ok (127 : Int) : Except DrvErr Int) ≠
      Except.error (DrvErr.programMissing "tmux: command not found") := by
  refine ⟨rfl, rfl, by decide⟩

/-! ### The session browser `show_sessions` (svty.py lines 873-1024) -/

theorem browserFrame_inv {α : Type} (st : BState α) (inp : BIn α) (hI : BrInv st) :
    ∃ st1, browserFrame st inp = some st1 ∧ BrFInv st1 := by
  obtain ⟨h1, h2, h3⟩ := hI
  by_cases hc : st.current_session = 0
  · by_cases hp : st.page_number > 0
    · refine ⟨{ st with page_number := min inp.pagesHome st.page_number }, ?_, ?_, ?_, ?_⟩
      · simp [browserFrame, hc, hp]
      · exact h1
      · intro _ a
        exact h2 hc (by omega) a
      · exact h3
    · refine ⟨{ st with sessions := inp.fresh, sessionVar := SessSel.homeS }, ?_, ?_, ?_, ?_⟩
      · simp [browserFrame, hc, hp]
      · simp [hc]
      · intro _ a h
        cases h
      · intro a h
        cases h
  · have hlt : st.current_session - 1 < st.sessions.length := by omega
    have hget : st.sessions[st.current_session - 1]? =
        some st.sessions[st.current_session - 1] := List.getElem?_eq_getElem hlt
    by_cases hp : st.page_number > 0
    · refine ⟨{ st with sessionVar := SessSel.obj (st.sessions[st.current_session - 1]), page_number := min inp.pagesSess st.page_number }, ?_, ?_, ?_, ?_⟩
      · simp only [browserFrame, if_neg hc, hget, if_pos hp]
      · exact h1
      · intro h0
        exact absurd h0 hc
      · intro a ha
        simp only [SessSel.obj.injEq] at ha
        cases ha
        exact List.getElem_mem hlt
    · refine ⟨{ st with sessionVar := SessSel.obj (st.sessions[st.current_session - 1]) }, ?_, ?_, ?_, ?_⟩
      · simp only [browserFrame, if_neg hc, hget, if_neg hp]
      · exact h1
      · intro h0
        exact absurd h0 hc
      · intro a ha
        simp only [SessSel.obj.injEq] at ha
        cases ha
        exact List.getElem_mem hlt

theorem browserKey_inv {α : Type} (st : BState α) (c : BKey) (hI : BrFInv st) :
    (∀ st2, browserKey st c = Sum.inl st2 → BrInv st2) ∧
    (∀ r snap, browserKey st c = Sum.inr (r, snap) →
      r = SessSel.noneS ∨ r = SessSel.homeS ∨ ∃ a, r = SessSel.obj a ∧ a ∈ snap) := by
  obtain ⟨h1, h2, h3⟩ := hI
  have hIw : BrInv st := ⟨h1, fun hc _ => h2 hc, h3⟩
  cases c with
  | q =>
    refine ⟨fun st2 h => Sum.noConfusion h, ?_⟩
    intro r snap h
    simp only [browserKey, Sum.inr.injEq, Prod.mk.injEq] at h
    exact Or.inl h.1.symm
  | enter =>
    by_cases hp : st.page_number = 0
    · refine ⟨?_, ?_⟩
      · intro st2 h
        simp [browserKey, hp] at h
      intro r snap h
      simp only [browserKey, if_pos hp, Sum.inr.injEq, Prod.mk.injEq] at h
      obtain ⟨hr, hs⟩ := h
      cases hv : st.sessionVar with
      | noneS => exact Or.inl (by rw [← hr, hv])
      | homeS => exact Or.inr (Or.inl (by rw [← hr, hv]))
      | obj a =>
        refine Or.inr (Or.inr ⟨a, by rw [← hr, hv], ?_⟩)
        rw [← hs]
        exact h3 a hv
    · refine ⟨?_, by intro r snap h; simp [browserKey, hp] at h⟩
      intro st2 h
      simp only [browserKey, if_neg hp] at h
      cases h
      exact hIw
  | left =>
    refine ⟨?_, by intro r snap h; by_cases hp : st.page_number = 0 <;>
      simp [browserKey, hp] at h⟩
    intro st2 h
    by_cases hp : st.page_number = 0
    · simp only [browserKey, if_pos hp, Sum.inl.injEq] at h
      subst h
      refine ⟨?_, ?_, h3⟩
      · by_cases h0 : st.current_session = 0 <;> (simp [h0]; try omega)
      · intro _ hpn
        exact absurd hp hpn
    · simp only [browserKey, if_neg hp, Sum.inl.injEq] at h
      subst h
      exact hIw
  | right =>
    refine ⟨?_, by intro r snap h; by_cases hp : st.page_number = 0 <;>
      simp [browserKey, hp] at h⟩
    intro st2 h
    by_cases hp : st.page_number = 0
    · simp only [browserKey, if_pos hp, Sum.inl.injEq] at h
      subst h
      refine ⟨?_, ?_, h3⟩
      · by_cases h0 : st.current_session = st.sessions.length <;> (simp [h0]; try omega)
      · intro _ hpn
        exact absurd hp hpn
    · simp only [browserKey, if_neg hp, Sum.inl.injEq] at h
      subst h
      exact hIw
  | npage =>
    refine ⟨?_, by intro r snap h; simp [browserKey] at h⟩
    intro st2 h
    simp only [browserKey, Sum.inl.injEq] at h
    subst h
    exact ⟨h1, fun hc _ => h2 hc, h3⟩
  | ppage =>
    refine ⟨?_, by intro r snap h; simp [browserKey] at h⟩
    intro st2 h
    simp only [browserKey, Sum.inl.injEq] at h
    subst h
    exact ⟨h1, fun hc _ => h2 hc, h3⟩
  | other =>
    refine ⟨?_, by intro r snap h; simp [browserKey] at h⟩
    intro st2 h
    simp only [browserKey, Sum.inl.injEq] at h
    subst h
    exact hIw

theorem browserRun_inv {α : Type} : ∀ (inputs : List (BIn α)) (st : BState α),
    BrInv st →
    ∃ res, browserRun st inputs = some res ∧
      (∀ st2, res = Sum.inl st2 → BrInv st2) ∧
      (∀ r snap, res = Sum.inr (r, snap) →
        r = SessSel.noneS ∨ r = SessSel.homeS ∨ ∃ a, r = SessSel.obj a ∧ a ∈ snap) := by
  intro inputs
  induction inputs with
  | nil =>
    intro st hI
    refine ⟨Sum.inl st, rfl, ?_, by intro r snap h; cases h⟩
    intro st2 h
    cases h
    exact hI
  | cons inp inps ih =>
    intro st hI
    obtain ⟨st1, hf, hFI⟩ := browserFrame_inv st inp hI
    obtain ⟨hk1, hk2⟩ := browserKey_inv st1 inp.key hFI
    cases hkey : browserKey st1 inp.key with
    | inl st2 =>
      obtain ⟨res, hrun, hres1, hres2⟩ := ih st2 (hk1 st2 hkey)
      refine ⟨res, ?_, hres1, hres2⟩
      simp only [browserRun, browserStep, hf, hkey, hrun]
    | inr r =>
      obtain ⟨r0, snap0⟩ := r
      refine ⟨Sum.inr (r0, snap0), ?_, fun st2 h => Sum.noConfusion h, ?_⟩
      · simp only [browserRun, browserStep, hf, hkey]
      · intro r1 snap1 h
        simp only [Sum.inr.injEq, Prod.mk.injEq] at h
        obtain ⟨hr, hs⟩ := h
        subst hr
        subst hs
        exact hk2 r0 snap0 hkey

/-- C8: on page 0, a right-arrow press sends `current_session` to its
successor modulo `len(sessions) + 1` and a left-arrow press to its
predecessor modulo `len(sessions) + 1`; consequently `n` right presses from
the home index 0 land on `n mod (len(sessions) + 1)`. -/
theorem C8_arrow_navigation {α : Type} (sessions : List α) :
    (∀ (s pg : Nat) (sv : SessSel α), s ≤ sessions.length → pg = 0 →
      browserKey ⟨s, pg, sessions, sv⟩ BKey.right =
        Sum.inl ⟨(s + 1) % (sessions.length + 1), pg, sessions, sv⟩ ∧
      browserKey ⟨s, pg, sessions, sv⟩ BKey.left =
        Sum.inl ⟨(s + sessions.length) % (sessions.length + 1), pg, sessions, sv⟩) ∧
    (∀ n : Nat,
      (fun s => if s = sessions.length then 0 else s + 1)^[n] 0 =
        n % (sessions.length + 1)) := by
  constructor
  · intro s pg sv hs hpg
    subst hpg
    have hr : (if s = sessions.length then 0 else s + 1) =
        (s + 1) % (sessions.length + 1) := by
      by_cases h : s = sessions.length
      · subst h
        rw [if_pos rfl, Nat.mod_self]
      · rw [if_neg h, Nat.mod_eq_of_lt (by omega)]
    have hl : (if s = 0 then sessions.length else s - 1) =
        (s + sessions.length) % (sessions.length + 1) := by
      by_cases h : s = 0
      · subst h
        rw [if_pos rfl, Nat.zero_add, Nat.mod_eq_of_lt (by omega)]
      · rw [if_neg h]
        have he : s + sessions.length = (s - 1) + 1 * (sessions.length + 1) := by omega
        rw [he, Nat.add_mul_mod_self_right, Nat.mod_eq_of_lt (by omega)]
    exact ⟨by simp [browserKey, hr], by simp [browserKey, hl]⟩
  · intro n
    induction n with
    | zero => simp
    | succ n ih =>
      rw [Function.iterate_succ_apply', ih]
      show (if n % (sessions.length + 1) = sessions.length then 0
        else n % (sessions.length + 1) + 1) = (n + 1) % (sessions.length + 1)
      have key : (n + 1) % (sessions.length + 1) =
          (n % (sessions.length + 1) + 1) % (sessions.length + 1) := by
        conv_lhs => rw [← Nat.mod_add_div n (sessions.length + 1), Nat.add_right_comm]
        rw [Nat.add_mul_mod_self_left]
      by_cases h : n % (sessions.length + 1) = sessions.length
      · rw [if_pos h, key, h, Nat.mod_self]
      · rw [if_neg h, key]
        have h2 : n % (sessions.length + 1) < sessions.length := by
          have := Nat.mod_lt n (show 0 < sessions.length + 1 by omega)
          omega
        rw [Nat.mod_eq_of_lt
          (show n % (sessions.length + 1) + 1 < sessions.length + 1 by omega)]

/-- Witness for C8: two sessions, a right press from index 2 wraps to home,
and five right presses from home land on `5 mod 3 = 2`. -/
theorem C8_arrow_navigation_witness :
    (browserKey (⟨2, 0, [10, 20], SessSel.homeS⟩ : BState Nat) BKey.right =
      Sum.inl ⟨(2 + 1) % ([10, 20].length + 1), 0, [10, 20], SessSel.homeS⟩) ∧
    ((fun s => if s = ([10, 20] : List Nat).length then 0 else s + 1)^[5] 0 =
      5 % ([10, 20].length + 1)) :=
  ⟨((C8_arrow_navigation [10, 20]).1 2 0 SessSel.homeS (by decide) rfl).1,
   (C8_arrow_navigation [10, 20]).2 5⟩

/-- C9 (implicit): starting from the initial browser state, every input
trace runs without an out-of-bounds access (`sessions[current_session - 1]`
is always defined), after every processed key `current_session` stays within
`0 .. len(sessions)`, and the value `show_sessions` returns is `None` (quit),
the home marker `0` (mapped to `""`), or a session object belonging to the
snapshot current at the moment of selection. -/
theorem C9_browser_selection_sound {α : Type} (inputs : List (BIn α)) :
    ∃ res, browserRun (browserInit α) inputs = some res ∧
      (∀ st2, res = Sum.inl st2 → st2.current_session ≤ st2.sessions.length) ∧
      (∀ r snap, res = Sum.inr (r, snap) →
        r = SessSel.noneS ∨ r = SessSel.homeS ∨ ∃ a, r = SessSel.obj a ∧ a ∈ snap) := by
  obtain ⟨res, h1, h2, h3⟩ := browserRun_inv inputs (browserInit α)
    ⟨by simp [browserInit], fun _ _ a h => SessSel.noConfusion h,
      fun a h => SessSel.noConfusion h⟩
  exact ⟨res, h1, fun st2 hst => (h2 st2 hst).1, h3⟩

/-- Witness for C9: a concrete trace that navigates right and selects the
single session. -/
theorem C9_browser_selection_sound_witness :
    ∃ res, browserRun (browserInit Nat)
        [⟨[7], 0, 0, BKey.right⟩, ⟨[7], 0, 0, BKey.enter⟩] = some res ∧
      (∀ st2, res = Sum.inl st2 → st2.current_session ≤ st2.sessions.length) ∧
      (∀ r snap, res = Sum.inr (r, snap) →
        r = SessSel.noneS ∨ r = SessSel.homeS ∨ ∃ a, r = SessSel.obj a ∧ a ∈ snap) :=
  C9_browser_selection_sound [⟨[7], 0, 0, BKey.right⟩, ⟨[7], 0, 0, BKey.enter⟩]
